import Mathlib

/-!
Verification of the node-local IP address management core (datastore and
pool-manager decision logic) of amazon-vpc-cni-k8s.

The Go code is embedded shallowly:
* Go maps (`map[string]*ENIIPPool`, `map[string]*AddressInfo`,
  `map[PodKey]PodIPInfo`) become association lists; iteration follows list
  order (one admissible Go iteration order), keys stay unique because the
  registration guards refuse duplicates.
* `time.Time` / `time.Duration` become `Int` (seconds); each operation that
  calls `time.Now()` takes the current time `now` as an explicit argument.
  `minLifeTime` and `addressCoolingPeriod` are `1 * time.Minute`, i.e. 60.
* Go `int` counters become `Int`.
* Fallible operations return `Except String α`; when the Go method returns
  an error it has not mutated the receiver, so the embedding returns no
  state on error and the caller keeps the pre-state.
-/

namespace VpcCni

/-- Address record: `AddressInfo` from the datastore source. -/
structure AddressInfo where
  Assigned : Bool
  address : String
  unAssignedTime : Int
deriving DecidableEq

/-- ENI record: `ENIIPPool` from the datastore source.  `IPv4Addresses` is the
Go map from IP literal to `AddressInfo`, embedded as an association list. -/
structure ENIIPPool where
  createTime : Int
  lastUnAssignedTime : Int
  IsPrimary : Bool
  id : String
  DeviceNumber : Int
  AssignedIPv4Addresses : Int
  IPv4Addresses : List (String × AddressInfo)
deriving DecidableEq

/-- Pod key: the tuple (name, namespace, container).  The Go field
`namespace` is a Lean keyword, so it is called `nspace` here. -/
structure PodKey where
  name : String
  nspace : String
  container : String
deriving DecidableEq

/-- `K8SPodInfo` as consumed by the datastore: identity plus the optional
requested IP (empty string means no requested IP). -/
structure K8SPodInfo where
  Name : String
  Namespace : String
  Container : String
  IP : String
deriving DecidableEq

/-- `PodIPInfo`: value of a pod binding. -/
structure PodIPInfo where
  IP : String
  DeviceNumber : Int
deriving DecidableEq

/-- `DataStore`: the node-level aggregate.  The `sync.RWMutex` is not
modelled; operations are the atomic critical sections it serialises. -/
structure DataStore where
  total : Int
  assigned : Int
  eniIPPools : List ENIIPPool
  podsIP : List (PodKey × PodIPInfo)
deriving DecidableEq

def NewPodKey (pod : K8SPodInfo) : PodKey :=
  { name := pod.Name, nspace := pod.Namespace, container := pod.Container }

def NewDataStore : DataStore :=
  { total := 0, assigned := 0, eniIPPools := [], podsIP := [] }

def minLifeTime : Int := 60

def addressCoolingPeriod : Int := 60

def DuplicatedENIError : String := "data store: duplicate ENI"

def DuplicateIPError : String := "datastore: duplicated IP"

def ErrUnknownPod : String := "datastore: unknown pod"

def ErrUnknownPodIP : String := "datastore: pod using unknown IP address"

/-- Go map read `ds.podsIP[podKey]`. -/
def lookupPod (l : List (PodKey × PodIPInfo)) (k : PodKey) : Option PodIPInfo :=
  (l.find? (fun p => decide (p.1 = k))).map (fun p => p.2)

/-- Go map write `ds.podsIP[podKey] = v`. -/
def setPodIP (l : List (PodKey × PodIPInfo)) (k : PodKey) (v : PodIPInfo) :
    List (PodKey × PodIPInfo) :=
  if l.any (fun p => decide (p.1 = k)) then
    l.map (fun p => if p.1 = k then (k, v) else p)
  else
    l ++ [(k, v)]

/-- `AddENI`: register an ENI.  `lastUnAssignedTime` starts at the zero
time, modelled as 0. -/
def AddENI (ds : DataStore) (eniID : String) (deviceNumber : Int)
    (isPrimary : Bool) (now : Int) : Except String DataStore :=
  if (ds.eniIPPools.find? (fun e => decide (e.id = eniID))).isSome then
    .error DuplicatedENIError
  else
    .ok { ds with eniIPPools := ds.eniIPPools ++
      [{ createTime := now, lastUnAssignedTime := 0, IsPrimary := isPrimary,
         id := eniID, DeviceNumber := deviceNumber,
         AssignedIPv4Addresses := 0, IPv4Addresses := [] }] }

/-- `AddENIIPv4Address`: register an IP on an ENI. -/
def AddENIIPv4Address (ds : DataStore) (eniID ipv4 : String) :
    Except String DataStore :=
  match ds.eniIPPools.find? (fun e => decide (e.id = eniID)) with
  | none => .error "add ENI's IP to datastore: unknown ENI"
  | some curENI =>
    if (curENI.IPv4Addresses.find? (fun p => decide (p.1 = ipv4))).isSome then
      .error DuplicateIPError
    else
      .ok { ds with
        total := ds.total + 1,
        eniIPPools := ds.eniIPPools.map (fun e =>
          if e.id = eniID then
            { e with IPv4Addresses := e.IPv4Addresses ++
                [(ipv4, { Assigned := false, address := ipv4, unAssignedTime := 0 })] }
          else e) }

/-- Inner loop of `assignPodIPv4AddressUnsafe` over one ENI's addresses.
Returns the claimed IP, whether the counters are incremented (the address
was not yet assigned), and the updated address list. -/
def findAddr (podIP : String) :
    List (String × AddressInfo) → Option (String × Bool × List (String × AddressInfo))
  | [] => none
  | (k, a) :: rest =>
    if podIP = a.address then
      some (a.address, !a.Assigned, (k, { a with Assigned := true }) :: rest)
    else if a.Assigned = false ∧ podIP = "" then
      some (a.address, true, (k, { a with Assigned := true }) :: rest)
    else
      match findAddr podIP rest with
      | some (ip, inc, rest2) => some (ip, inc, (k, a) :: rest2)
      | none => none

/-- Outer loop of `assignPodIPv4AddressUnsafe` over the ENIs.  Returns the
claimed IP, the device number, the increment flag and the updated ENI
list.  An ENI with no free address is skipped only when no IP was
requested, exactly as in the source. -/
def assignScan (podIP : String) :
    List ENIIPPool → Option (String × Int × Bool × List ENIIPPool)
  | [] => none
  | eni :: rest =>
    if podIP = "" ∧ (eni.IPv4Addresses.length : Int) = eni.AssignedIPv4Addresses then
      match assignScan podIP rest with
      | some (ip, dn, inc, rest2) => some (ip, dn, inc, eni :: rest2)
      | none => none
    else
      match findAddr podIP eni.IPv4Addresses with
      | some (ip, inc, addrs2) =>
        some (ip, eni.DeviceNumber, inc,
          { eni with
            IPv4Addresses := addrs2,
            AssignedIPv4Addresses :=
              eni.AssignedIPv4Addresses + (if inc then 1 else 0) } :: rest)
      | none =>
        match assignScan podIP rest with
        | some (ip, dn, inc, rest2) => some (ip, dn, inc, eni :: rest2)
        | none => none

/-- `assignPodIPv4AddressUnsafe`: claim an address and record the binding. -/
def assignPodIPv4AddressUnsafe (ds : DataStore) (pod : K8SPodInfo) :
    Except String (String × Int × DataStore) :=
  match assignScan pod.IP ds.eniIPPools with
  | some (ip, dn, inc, enis) =>
    .ok (ip, dn,
      { ds with
        eniIPPools := enis,
        assigned := ds.assigned + (if inc then 1 else 0),
        podsIP := setPodIP ds.podsIP (NewPodKey pod) { IP := ip, DeviceNumber := dn } })
  | none => .error "datastore: no available IP addresses"

/-- `AssignPodIPv4Address`: front door of assign.  Note the source condition
`ipAddr.IP == k8sPod.IP && k8sPod.IP != ""`: an existing binding is only
returned when the requested IP is non-empty and matches it. -/
def AssignPodIPv4Address (ds : DataStore) (pod : K8SPodInfo) :
    Except String (String × Int × DataStore) :=
  match lookupPod ds.podsIP (NewPodKey pod) with
  | some ipAddr =>
    if ipAddr.IP = pod.IP ∧ pod.IP ≠ "" then
      .ok (ipAddr.IP, ipAddr.DeviceNumber, ds)
    else
      .error "datastore; invalid pod with multiple IP addresses"
  | none => assignPodIPv4AddressUnsafe ds pod

/-- `GetStats`: (total, assigned). -/
def GetStats (ds : DataStore) : Int × Int :=
  (ds.total, ds.assigned)

/-- The in-place update `UnAssignPodIPv4Address` performs on the ENI that
holds the released address. -/
def unassignENI (eni : ENIIPPool) (ip : String) (now : Int) : ENIIPPool :=
  { eni with
    IPv4Addresses := eni.IPv4Addresses.map (fun p =>
      if p.1 = ip then (p.1, { p.2 with Assigned := false, unAssignedTime := now }) else p),
    AssignedIPv4Addresses := eni.AssignedIPv4Addresses - 1,
    lastUnAssignedTime := now }

/-- Loop of `UnAssignPodIPv4Address` over the ENIs: the Go code does a map
read `eni.IPv4Addresses[ipAddr.IP]` on each ENI and acts on the first hit
whose address is assigned. -/
def unassignScan (ip : String) (now : Int) :
    List ENIIPPool → Option (String × Int × List ENIIPPool)
  | [] => none
  | eni :: rest =>
    match eni.IPv4Addresses.find? (fun p => decide (p.1 = ip)) with
    | some p =>
      if p.2.Assigned then
        some (p.2.address, eni.DeviceNumber, unassignENI eni ip now :: rest)
      else
        match unassignScan ip now rest with
        | some (a, d, rest2) => some (a, d, eni :: rest2)
        | none => none
    | none =>
      match unassignScan ip now rest with
      | some (a, d, rest2) => some (a, d, eni :: rest2)
      | none => none

/-- `UnAssignPodIPv4Address`: release a pod's address. -/
def UnAssignPodIPv4Address (ds : DataStore) (pod : K8SPodInfo) (now : Int) :
    Except String (String × Int × DataStore) :=
  match lookupPod ds.podsIP (NewPodKey pod) with
  | none => .error ErrUnknownPod
  | some ipAddr =>
    match unassignScan ipAddr.IP now ds.eniIPPools with
    | some (ip, dn, enis) =>
      .ok (ip, dn,
        { ds with
          assigned := ds.assigned - 1,
          eniIPPools := enis,
          podsIP := ds.podsIP.filter (fun p => !decide (p.1 = NewPodKey pod)) })
    | none => .error ErrUnknownPodIP

/-- `getDeletableENI`: first ENI that is not primary, old enough, past the
cooling period, and has no assigned address. -/
def getDeletableENI (ds : DataStore) (now : Int) : Option ENIIPPool :=
  ds.eniIPPools.find? (fun eni =>
    !eni.IsPrimary &&
    !decide (now - eni.createTime < minLifeTime) &&
    !decide (now - eni.lastUnAssignedTime < addressCoolingPeriod) &&
    decide (eni.AssignedIPv4Addresses = 0))

/-- `FreeENI`: drop a deletable ENI.  The Go code re-reads
`ds.eniIPPools[deletableENI.id]`, which is the very record
`getDeletableENI` returned, so the embedding uses that record directly. -/
def FreeENI (ds : DataStore) (now : Int) : Except String (String × DataStore) :=
  match getDeletableENI ds now with
  | none => .error "free ENI: no ENI can be deleted at this time"
  | some deletableENI =>
    .ok (deletableENI.id,
      { ds with
        total := ds.total - (deletableENI.IPv4Addresses.length : Int),
        assigned := ds.assigned - deletableENI.AssignedIPv4Addresses,
        eniIPPools := ds.eniIPPools.filter (fun e => !decide (e.id = deletableENI.id)) })

/-- `GetENIs`: number of ENIs in the datastore. -/
def GetENIs (ds : DataStore) : Nat :=
  ds.eniIPPools.length

/-! Pool manager (`ipamd.go`). -/

/-- Outcome of one `updateIPPoolIfRequired` tick. -/
inductive PoolAction where
  | grow
  | shrink
  | idle
deriving DecidableEq

/-- Decision logic of `updateIPPoolIfRequired`, with `(total, used)` read
from `GetStats`. -/
def updateIPPoolIfRequired (total used currentMaxAddrsPerENI : Int) : PoolAction :=
  if total - used ≤ currentMaxAddrsPerENI then .grow
  else if total - used > 2 * currentMaxAddrsPerENI then .shrink
  else .idle

/-- Substring test on character lists, used to embed `strings.Contains`. -/
def matchesAt : List Char → List Char → Bool
  | _, [] => true
  | [], _ :: _ => false
  | h :: hs, n :: ns => h == n && matchesAt hs ns

/-- `strings.Contains hay needle` on character lists. -/
def hasSubstring (needle : List Char) : List Char → Bool
  | [] => matchesAt [] needle
  | h :: hs => matchesAt (h :: hs) needle || hasSubstring needle hs

/-- `isAttachmentLimitExceededError`:
`strings.Contains(err.Error(), "AttachmentLimitExceeded")`. -/
def isAttachmentLimitExceededError (err : String) : Bool :=
  hasSubstring "AttachmentLimitExceeded".data err.data

/-- How far one `increaseIPPool` call got. -/
inductive GrowOutcome where
  | skipped
  | abortedLimit
  | abortedOther
  | proceeded
deriving DecidableEq

/-- Control flow of `increaseIPPool` up to the cloud allocation call.
`maxENI` and `eniCount = GetENIs` are the manager fields read; the result
of `awsClient.AllocENI()` is passed in as `allocResult`.  When the guard
`maxENI > 0 && maxENI == GetENIs()` holds the function returns before
calling the cloud, so `allocResult` is irrelevant and the outcome is
`skipped`.  The returned `Nat` is the new value of `maxENI`. -/
def increaseIPPool (maxENI eniCount : Nat) (allocResult : Except String String) :
    Nat × GrowOutcome :=
  if maxENI > 0 ∧ maxENI = eniCount then
    (maxENI, .skipped)
  else
    match allocResult with
    | .error e =>
      if isAttachmentLimitExceededError e then (eniCount, .abortedLimit)
      else (maxENI, .abortedOther)
    | .ok _ => (maxENI, .proceeded)

/-! Operation sequences and reachable states. -/

/-- One datastore operation with its arguments (including the wall-clock
instant for the operations that read it). -/
inductive Op where
  | addENI (eniID : String) (deviceNumber : Int) (isPrimary : Bool) (now : Int)
  | addIP (eniID ipv4 : String)
  | assign (pod : K8SPodInfo)
  | unassign (pod : K8SPodInfo) (now : Int)
  | free (now : Int)

/-- Apply one operation; a failed call leaves the state unchanged (the Go
methods return errors before mutating the receiver). -/
def applyOp (ds : DataStore) : Op → DataStore
  | .addENI e d p n =>
    match AddENI ds e d p n with
    | .ok ds2 => ds2
    | .error _ => ds
  | .addIP e ip =>
    match AddENIIPv4Address ds e ip with
    | .ok ds2 => ds2
    | .error _ => ds
  | .assign pod =>
    match AssignPodIPv4Address ds pod with
    | .ok r => r.2.2
    | .error _ => ds
  | .unassign pod n =>
    match UnAssignPodIPv4Address ds pod n with
    | .ok r => r.2.2
    | .error _ => ds
  | .free n =>
    match FreeENI ds n with
    | .ok r => r.2
    | .error _ => ds

/-- State reached from a fresh datastore by a sequence of operations. -/
def runOps (ops : List Op) : DataStore :=
  ops.foldl applyOp NewDataStore

/-! Derived quantities used by the invariants. -/

/-- Sum over the ENIs of the number of Address records. -/
def sumLens (l : List ENIIPPool) : Int :=
  (l.map (fun e => (e.IPv4Addresses.length : Int))).sum

/-- Sum over the ENIs of the `AssignedIPv4Addresses` counters. -/
def sumAssignedCounters (l : List ENIIPPool) : Int :=
  (l.map (fun e => e.AssignedIPv4Addresses)).sum

/-- Number of assigned Address records in an address list. -/
def addrFlags (l : List (String × AddressInfo)) : Nat :=
  (l.filter (fun p => p.2.Assigned)).length

/-- Number of addresses on one ENI whose `Assigned` flag is true. -/
def eniAssignedFlags (e : ENIIPPool) : Nat :=
  addrFlags e.IPv4Addresses

/-- Number of assigned Address records across the datastore. -/
def totalAssignedFlags (l : List ENIIPPool) : Nat :=
  (l.map eniAssignedFlags).sum

/-- Is the address `ip` present on `e` with its `Assigned` flag set?  (Key
lookup, as in the release loop.) -/
def assignedOn (e : ENIIPPool) (ip : String) : Bool :=
  match e.IPv4Addresses.find? (fun p => decide (p.1 = ip)) with
  | some p => p.2.Assigned
  | none => false

/-- Pod-binding consistency: every binding's IP exists as an Address on
exactly one ENI and that Address is assigned. -/
def podsConsistent (ds : DataStore) : Bool :=
  ds.podsIP.all (fun b =>
    (ds.eniIPPools.filter (fun e =>
      (e.IPv4Addresses.find? (fun p => decide (p.1 = b.2.IP))).isSome)).length = 1
    && ds.eniIPPools.all (fun e =>
      match e.IPv4Addresses.find? (fun p => decide (p.1 = b.2.IP)) with
      | some p => p.2.Assigned
      | none => true))

/-- Structural well-formedness of a datastore: the representation
invariants the Go maps provide by construction (key uniqueness) together
with the counter identities of the data model. -/
def WF (ds : DataStore) : Prop :=
  (ds.eniIPPools.map (fun e => e.id)).Nodup ∧
  (∀ e ∈ ds.eniIPPools, (e.IPv4Addresses.map (fun p => p.1)).Nodup) ∧
  (ds.podsIP.map (fun p => p.1)).Nodup ∧
  ds.total = sumLens ds.eniIPPools ∧
  ds.assigned = sumAssignedCounters ds.eniIPPools ∧
  (∀ e ∈ ds.eniIPPools, e.AssignedIPv4Addresses = (eniAssignedFlags e : Int)) ∧
  (∀ e ∈ ds.eniIPPools, ∀ p ∈ e.IPv4Addresses, p.2.address = p.1)

/-- All-succeed fold of `AssignPodIPv4Address` over a list of pods. -/
def runAssignsOk : DataStore → List K8SPodInfo → Option DataStore
  | ds, [] => some ds
  | ds, p :: ps =>
    match AssignPodIPv4Address ds p with
    | .ok r => runAssignsOk r.2.2 ps
    | .error _ => none

/-- All-succeed fold of `UnAssignPodIPv4Address` over a list of pods. -/
def runReleasesOk (now : Int) : DataStore → List K8SPodInfo → Option DataStore
  | ds, [] => some ds
  | ds, p :: ps =>
    match UnAssignPodIPv4Address ds p now with
    | .ok r => runReleasesOk now r.2.2 ps
    | .error _ => none

/-! Concrete pods and states used by witnesses and counterexamples. -/

/-- Pod (p, d, c) with no requested IP. -/
def podEmptyReq : K8SPodInfo :=
  { Name := "p", Namespace := "d", Container := "c", IP := "" }

/-- Pod (p, d, c) requesting 10.0.0.5. -/
def podReqSame : K8SPodInfo :=
  { Name := "p", Namespace := "d", Container := "c", IP := "10.0.0.5" }

/-- Pod (p, d, c) requesting 10.0.0.7. -/
def podReqOther : K8SPodInfo :=
  { Name := "p", Namespace := "d", Container := "c", IP := "10.0.0.7" }

/-- A second pod (q, d, c) requesting 10.0.0.5. -/
def podQReq : K8SPodInfo :=
  { Name := "q", Namespace := "d", Container := "c", IP := "10.0.0.5" }

/-- Scenario S1 setup: one primary ENI with one registered IP. -/
def baseOps : List Op :=
  [.addENI "eni-a" 1 true 0, .addIP "eni-a" "10.0.0.5"]

/-- Scenario S1 setup state. -/
def s1Store : DataStore :=
  runOps baseOps

/-- Scenario S1 state after assigning pod p. -/
def s1Assigned : DataStore :=
  runOps (baseOps ++ [.assign podEmptyReq])

/-- Scenario S1 state after assigning then releasing pod p at t = 5. -/
def s1Released : DataStore :=
  runOps (baseOps ++ [.assign podEmptyReq, .unassign podEmptyReq 5])

/-- Two pod keys bound to one address, then the first released. -/
def sharedIPOps : List Op :=
  baseOps ++ [.assign podEmptyReq, .assign podQReq, .unassign podEmptyReq 5]

/-- State reached by `sharedIPOps`: pod q still bound to the released
address 10.0.0.5. -/
def sharedIPStore : DataStore :=
  runOps sharedIPOps

/-- A non-primary ENI registered at time 0 with no addresses. -/
def eniBStore : DataStore :=
  runOps [.addENI "eni-b" 2 false 0]

/-- The state left after freeing eni-b from `eniBStore`. -/
def eniBFreed : DataStore :=
  { total := 0, assigned := 0, eniIPPools := [], podsIP := [] }

/-! Claim theorems and supporting lemmas. -/

/-- C4 counterexample: with current-max-addrs-per-ENI = 14, total = 28 and
used = 0, the tick is idle (28 is not greater than 2 x 14), not shrink as
the claim's example asserts. -/
theorem c4_counterexample :
    updateIPPoolIfRequired 28 0 14 ≠ PoolAction.shrink ∧
    updateIPPoolIfRequired 28 0 14 = PoolAction.idle := by
  decide

/-- C4 (amended): on every tick the grow procedure is invoked iff
total - used ≤ current-max-addrs-per-ENI, the shrink procedure is invoked
iff total - used > 2 x current-max-addrs-per-ENI, and otherwise neither is
invoked; in particular (14,14) grows, (29,0) shrinks, and (28,10) as well
as (28,0) trigger neither. -/
theorem c4_pool_thresholds (total used c : Int) (hc : 0 ≤ c) :
    (updateIPPoolIfRequired total used c = PoolAction.grow ↔ total - used ≤ c)
    ∧ (updateIPPoolIfRequired total used c = PoolAction.shrink ↔ total - used > 2 * c)
    ∧ (updateIPPoolIfRequired total used c = PoolAction.idle ↔
        (c < total - used ∧ total - used ≤ 2 * c)) := by
  unfold updateIPPoolIfRequired
  split
  case isTrue h =>
    exact ⟨iff_of_true rfl h, iff_of_false (by decide) (by omega),
      iff_of_false (by decide) (by omega)⟩
  case isFalse h =>
    split
    case isTrue h2 =>
      exact ⟨iff_of_false (by decide) (by omega), iff_of_true rfl h2,
        iff_of_false (by decide) (by omega)⟩
    case isFalse h2 =>
      exact ⟨iff_of_false (by decide) (by omega), iff_of_false (by decide) (by omega),
        iff_of_true rfl (by omega)⟩

/-- Witness for c4_pool_thresholds at the claim's concrete inputs. -/
theorem c4_pool_thresholds_witness :
    (0 : Int) ≤ 14 ∧
    updateIPPoolIfRequired 14 14 14 = PoolAction.grow ∧
    updateIPPoolIfRequired 29 0 14 = PoolAction.shrink ∧
    updateIPPoolIfRequired 28 10 14 = PoolAction.idle :=
  ⟨by decide,
   (c4_pool_thresholds 14 14 14 (by decide)).1.mpr (by decide),
   (c4_pool_thresholds 29 0 14 (by decide)).2.1.mpr (by decide),
   (c4_pool_thresholds 28 10 14 (by decide)).2.2.mpr (by decide)⟩

/-- C6: a pod that already has a binding and requests a different,
non-empty IP gets the InconsistentPodIP error, and the datastore state is
unchanged (the operation's state transition is the identity). -/
theorem c6_inconsistent_pod_ip (ds : DataStore) (pod : K8SPodInfo) (info : PodIPInfo)
    (hb : lookupPod ds.podsIP (NewPodKey pod) = some info)
    (_hne : pod.IP ≠ "") (hdiff : pod.IP ≠ info.IP) :
    AssignPodIPv4Address ds pod = .error "datastore; invalid pod with multiple IP addresses"
    ∧ applyOp ds (.assign pod) = ds := by
  have h1 : AssignPodIPv4Address ds pod =
      .error "datastore; invalid pod with multiple IP addresses" := by
    simp only [AssignPodIPv4Address, hb]
    rw [if_neg]
    intro hcon
    exact hdiff hcon.1.symm
  refine ⟨h1, ?_⟩
  simp only [applyOp, h1]

/-- Witness for c6_inconsistent_pod_ip: scenario S3 on the S1 state. -/
theorem c6_inconsistent_pod_ip_witness :
    lookupPod s1Assigned.podsIP (NewPodKey podReqOther) =
      some { IP := "10.0.0.5", DeviceNumber := 1 }
    ∧ AssignPodIPv4Address s1Assigned podReqOther =
        .error "datastore; invalid pod with multiple IP addresses" :=
  ⟨by decide,
   (c6_inconsistent_pod_ip s1Assigned podReqOther { IP := "10.0.0.5", DeviceNumber := 1 }
     (by decide) (by decide) (by decide)).1⟩

/-- C8: when the skip guard is not already active, a cloud allocation
failure carrying the AttachmentLimitExceeded marker pins max-ENI to the
current ENI count and aborts the tick; whenever max-ENI is positive and
equals the current ENI count the grow procedure returns before calling the
cloud (outcome skipped); composing the two, after such a failure every
later tick with the same positive ENI count is skipped. -/
theorem c8_attachment_limit (maxENI eniCount : Nat) (e : String)
    (r r2 : Except String String) :
    (¬(maxENI > 0 ∧ maxENI = eniCount) → isAttachmentLimitExceededError e = true →
      increaseIPPool maxENI eniCount (.error e) = (eniCount, .abortedLimit))
    ∧ (maxENI > 0 → maxENI = eniCount →
      increaseIPPool maxENI eniCount r = (maxENI, .skipped))
    ∧ (¬(maxENI > 0 ∧ maxENI = eniCount) → isAttachmentLimitExceededError e = true →
      eniCount > 0 →
      increaseIPPool (increaseIPPool maxENI eniCount (.error e)).1 eniCount r2
        = (eniCount, .skipped)) := by
  have habort : ¬(maxENI > 0 ∧ maxENI = eniCount) →
      isAttachmentLimitExceededError e = true →
      increaseIPPool maxENI eniCount (.error e) = (eniCount, .abortedLimit) := by
    intro hg hlim
    simp only [increaseIPPool, if_neg hg, hlim, if_true]
  refine ⟨habort, ?_, ?_⟩
  · intro h1 h2
    simp only [increaseIPPool, if_pos (And.intro h1 h2)]
  · intro hg hlim hpos
    rw [habort hg hlim]
    simp [increaseIPPool, hpos]

/-- Witness for c8_attachment_limit: a fresh manager (max-ENI = 0) with two
ENIs attached hits the limit error, then skips. -/
theorem c8_attachment_limit_witness :
    increaseIPPool 0 2 (.error "AttachmentLimitExceeded: limit reached")
      = (2, .abortedLimit)
    ∧ increaseIPPool 2 2 (.ok "eni-new") = (2, .skipped)
    ∧ increaseIPPool
        (increaseIPPool 0 2 (.error "AttachmentLimitExceeded: limit reached")).1 2
        (.ok "eni-new") = (2, .skipped) :=
  ⟨(c8_attachment_limit 0 2 "AttachmentLimitExceeded: limit reached"
      (.ok "eni-new") (.ok "eni-new")).1 (by decide) (by decide),
   (c8_attachment_limit 2 2 "AttachmentLimitExceeded: limit reached"
      (.ok "eni-new") (.ok "eni-new")).2.1 (by decide) rfl,
   (c8_attachment_limit 0 2 "AttachmentLimitExceeded: limit reached"
      (.ok "eni-new") (.ok "eni-new")).2.2 (by decide) (by decide) (by decide)⟩


/-- Conditions established by `getDeletableENI` for the ENI it selects. -/
theorem getDeletableENI_spec (ds : DataStore) (now : Int) (eni : ENIIPPool)
    (h : getDeletableENI ds now = some eni) :
    eni ∈ ds.eniIPPools ∧ eni.IsPrimary = false ∧ eni.AssignedIPv4Addresses = 0 ∧
    minLifeTime ≤ now - eni.createTime ∧
    addressCoolingPeriod ≤ now - eni.lastUnAssignedTime := by
  unfold getDeletableENI at h
  have hmem := List.mem_of_find?_eq_some h
  have hp := List.find?_some h
  simp only [Bool.and_eq_true, Bool.not_eq_true', decide_eq_true_eq,
    decide_eq_false_iff_not] at hp
  obtain ⟨⟨⟨h1, h2⟩, h3⟩, h4⟩ := hp
  exact ⟨hmem, h1, h4, by omega, by omega⟩

/-- C3: a selected deletable ENI is never primary, never has assigned
addresses, and always satisfies both 60-second safety windows; free-ENI
only ever returns such an ENI; and on a datastore whose ENIs are all
primary (regardless of age or emptiness), free-ENI returns the
NoDeletable error. -/
theorem c3_free_eni_safety (ds : DataStore) (now : Int) :
    (∀ eni, getDeletableENI ds now = some eni →
      eni.IsPrimary = false ∧ eni.AssignedIPv4Addresses = 0 ∧
      minLifeTime ≤ now - eni.createTime ∧
      addressCoolingPeriod ≤ now - eni.lastUnAssignedTime)
    ∧ (∀ id ds2, FreeENI ds now = .ok (id, ds2) →
      ∃ eni ∈ ds.eniIPPools, eni.id = id ∧ eni.IsPrimary = false ∧
        eni.AssignedIPv4Addresses = 0 ∧ minLifeTime ≤ now - eni.createTime ∧
        addressCoolingPeriod ≤ now - eni.lastUnAssignedTime)
    ∧ ((∀ e ∈ ds.eniIPPools, e.IsPrimary = true) →
      FreeENI ds now = .error "free ENI: no ENI can be deleted at this time") := by
  refine ⟨?_, ?_, ?_⟩
  · intro eni h
    obtain ⟨_, h1, h2, h3, h4⟩ := getDeletableENI_spec ds now eni h
    exact ⟨h1, h2, h3, h4⟩
  · intro id ds2 h
    cases hdel : getDeletableENI ds now with
    | none => simp [FreeENI, hdel] at h
    | some eni =>
      simp only [FreeENI, hdel, Except.ok.injEq, Prod.mk.injEq] at h
      obtain ⟨hid, _⟩ := h
      obtain ⟨hmem, h1, h2, h3, h4⟩ := getDeletableENI_spec ds now eni hdel
      exact ⟨eni, hmem, hid, h1, h2, h3, h4⟩
  · intro hprim
    have hnone : getDeletableENI ds now = none := by
      unfold getDeletableENI
      rw [List.find?_eq_none]
      intro e he
      simp [hprim e he]
    simp [FreeENI, hnone]

/-- Witness for c3_free_eni_safety: the young non-primary ENI eni-b is
selectable at t = 65 and satisfies all four conditions; the S1 store
(primary only, arbitrarily old) yields the NoDeletable error. -/
theorem c3_free_eni_safety_witness :
    ((getDeletableENI eniBStore 65).map (fun e => e.id) = some "eni-b"
      ∧ (∀ eni, getDeletableENI eniBStore 65 = some eni →
          eni.IsPrimary = false ∧ eni.AssignedIPv4Addresses = 0 ∧
          minLifeTime ≤ 65 - eni.createTime ∧
          addressCoolingPeriod ≤ 65 - eni.lastUnAssignedTime))
    ∧ ((∀ e ∈ s1Store.eniIPPools, e.IsPrimary = true)
      ∧ FreeENI s1Store 1000000 =
          .error "free ENI: no ENI can be deleted at this time") :=
  ⟨⟨by decide, (c3_free_eni_safety eniBStore 65).1⟩,
   ⟨by decide, (c3_free_eni_safety s1Store 1000000).2.2 (by decide)⟩⟩

/-- C7: when free-ENI returns an id, no ENI with that id remains, the
total counter drops by exactly the number of addresses the removed ENI
held, and the assigned counter is unchanged (the selected ENI had
assigned-on-this-ENI = 0). -/
theorem c7_free_eni_post (ds : DataStore) (now : Int) (id : String) (ds2 : DataStore)
    (h : FreeENI ds now = .ok (id, ds2)) :
    (∀ e ∈ ds2.eniIPPools, e.id ≠ id)
    ∧ (∃ eni ∈ ds.eniIPPools, eni.id = id ∧ eni.AssignedIPv4Addresses = 0 ∧
        ds2.total = ds.total - (eni.IPv4Addresses.length : Int))
    ∧ ds2.assigned = ds.assigned := by
  cases hdel : getDeletableENI ds now with
  | none => simp [FreeENI, hdel] at h
  | some eni =>
    simp only [FreeENI, hdel, Except.ok.injEq, Prod.mk.injEq] at h
    obtain ⟨hid, hds⟩ := h
    obtain ⟨hmem, _, hzero, _, _⟩ := getDeletableENI_spec ds now eni hdel
    refine ⟨?_, ⟨eni, hmem, hid, hzero, ?_⟩, ?_⟩
    · intro e he
      rw [← hds] at he
      have := (List.mem_filter.mp he).2
      simp only [Bool.not_eq_eq_eq_not, Bool.not_true, decide_eq_false_iff_not] at this
      intro hcontra
      rw [hcontra] at this
      exact this hid.symm
    · rw [← hds]
    · rw [← hds]
      simp [hzero]

/-- Witness for c7_free_eni_post: freeing eni-b at t = 65. -/
theorem c7_free_eni_post_witness :
    FreeENI eniBStore 65 = .ok ("eni-b", eniBFreed)
    ∧ ((∀ e ∈ eniBFreed.eniIPPools, e.id ≠ "eni-b")
      ∧ (∃ eni ∈ eniBStore.eniIPPools, eni.id = "eni-b" ∧
          eni.AssignedIPv4Addresses = 0 ∧
          eniBFreed.total = eniBStore.total - (eni.IPv4Addresses.length : Int))
      ∧ eniBFreed.assigned = eniBStore.assigned) :=
  ⟨by rfl, c7_free_eni_post eniBStore 65 "eni-b" eniBFreed (by rfl)⟩


/-- With a non-empty requested IP, `findAddr` can only return that IP. -/
theorem findAddr_ip_of_ne (podIP : String) (hne : podIP ≠ "") :
    ∀ l ip inc l2, findAddr podIP l = some (ip, inc, l2) → ip = podIP := by
  intro l
  induction l with
  | nil =>
    intro ip inc l2 h
    simp [findAddr] at h
  | cons hd tl ih =>
    intro ip inc l2 h
    obtain ⟨k, a⟩ := hd
    simp only [findAddr] at h
    split at h
    case isTrue h1 =>
      simp only [Option.some.injEq, Prod.mk.injEq] at h
      rw [← h.1, h1]
    case isFalse h1 =>
      split at h
      case isTrue h2 =>
        exact absurd h2.2 hne
      case isFalse h2 =>
        cases hrec : findAddr podIP tl with
        | none =>
          rw [hrec] at h
          cases h
        | some r =>
          obtain ⟨ip3, inc3, l3⟩ := r
          rw [hrec] at h
          simp only [Option.some.injEq, Prod.mk.injEq] at h
          rw [← h.1]
          exact ih ip3 inc3 l3 hrec

/-- With a non-empty requested IP, `assignScan` can only return that IP. -/
theorem assignScan_ip_of_ne (podIP : String) (hne : podIP ≠ "") :
    ∀ l ip dn inc l2, assignScan podIP l = some (ip, dn, inc, l2) → ip = podIP := by
  intro l
  induction l with
  | nil =>
    intro ip dn inc l2 h
    simp [assignScan] at h
  | cons eni tl ih =>
    intro ip dn inc l2 h
    simp only [assignScan] at h
    rw [if_neg (fun hc => hne hc.1)] at h
    cases hfa : findAddr podIP eni.IPv4Addresses with
    | some r =>
      obtain ⟨ip3, inc3, addrs3⟩ := r
      rw [hfa] at h
      simp only [Option.some.injEq, Prod.mk.injEq] at h
      rw [← h.1]
      exact findAddr_ip_of_ne podIP hne eni.IPv4Addresses ip3 inc3 addrs3 hfa
    | none =>
      rw [hfa] at h
      cases hrec : assignScan podIP tl with
      | none =>
        rw [hrec] at h
        cases h
      | some r =>
        obtain ⟨ip3, dn3, inc3, l3⟩ := r
        rw [hrec] at h
        simp only [Option.some.injEq, Prod.mk.injEq] at h
        rw [← h.1]
        exact ih ip3 dn3 inc3 l3 hrec

/-- Successful `assignPodIPv4AddressUnsafe` decomposed into its scan. -/
theorem assignPodIPv4AddressUnsafe_ok (ds : DataStore) (pod : K8SPodInfo)
    (ip : String) (dn : Int) (ds2 : DataStore)
    (h : assignPodIPv4AddressUnsafe ds pod = .ok (ip, dn, ds2)) :
    ∃ inc enis, assignScan pod.IP ds.eniIPPools = some (ip, dn, inc, enis) ∧
      ds2 = { ds with
        eniIPPools := enis,
        assigned := ds.assigned + (if inc then 1 else 0),
        podsIP := setPodIP ds.podsIP (NewPodKey pod) { IP := ip, DeviceNumber := dn } } := by
  unfold assignPodIPv4AddressUnsafe at h
  cases hscan : assignScan pod.IP ds.eniIPPools with
  | none =>
    rw [hscan] at h
    cases h
  | some r =>
    obtain ⟨ip0, dn0, inc0, enis0⟩ := r
    rw [hscan] at h
    simp only [Except.ok.injEq, Prod.mk.injEq] at h
    obtain ⟨h1, h2, h3⟩ := h
    subst h1 h2
    exact ⟨inc0, enis0, rfl, h3.symm⟩

/-- Looking up a key just appended to a map in which it was absent. -/
theorem lookupPod_append_self (l : List (PodKey × PodIPInfo)) (k : PodKey)
    (v : PodIPInfo) (h : l.find? (fun p => decide (p.1 = k)) = none) :
    lookupPod (l ++ [(k, v)]) k = some v := by
  unfold lookupPod
  rw [List.find?_append, h]
  simp

/-- `setPodIP` on an absent key appends. -/
theorem setPodIP_absent (l : List (PodKey × PodIPInfo)) (k : PodKey)
    (v : PodIPInfo) (h : l.find? (fun p => decide (p.1 = k)) = none) :
    setPodIP l k v = l ++ [(k, v)] := by
  unfold setPodIP
  rw [if_neg]
  intro hany
  obtain ⟨p, hp, hpk⟩ := List.any_eq_true.mp hany
  exact absurd hpk (by simpa using (List.find?_eq_none.mp h) p hp)

/-- C2 counterexample: in scenario S1 the pod p is bound to 10.0.0.5, yet
re-assigning p with an empty requested IP fails with InconsistentPodIP
instead of returning the existing binding, because the source guard
requires `k8sPod.IP != ""`. -/
theorem c2_counterexample :
    lookupPod s1Assigned.podsIP (NewPodKey podEmptyReq) =
      some { IP := "10.0.0.5", DeviceNumber := 1 }
    ∧ AssignPodIPv4Address s1Assigned podEmptyReq =
        .error "datastore; invalid pod with multiple IP addresses" :=
  ⟨by decide, by rfl⟩

/-- C2 (amended): for a pod whose key is already bound, assign succeeds
only with a non-empty requested IP equal to the binding's IP, in which
case it returns the existing (ip, device-number) and the state is
unchanged; consequently assign is idempotent for non-empty requested IPs:
a successful assign followed by the same call returns the same pair and
leaves the state of the second call identical. -/
theorem c2_idempotent_reassign (ds : DataStore) (pod : K8SPodInfo)
    (hne : pod.IP ≠ "") :
    (∀ info, lookupPod ds.podsIP (NewPodKey pod) = some info → info.IP = pod.IP →
      AssignPodIPv4Address ds pod = .ok (info.IP, info.DeviceNumber, ds))
    ∧ (∀ ip dn ds2, AssignPodIPv4Address ds pod = .ok (ip, dn, ds2) →
      AssignPodIPv4Address ds2 pod = .ok (ip, dn, ds2)) := by
  constructor
  · intro info hlk hip
    simp only [AssignPodIPv4Address, hlk]
    rw [if_pos ⟨hip, hne⟩]
  · intro ip dn ds2 h
    unfold AssignPodIPv4Address at h
    cases hlk : lookupPod ds.podsIP (NewPodKey pod) with
    | some info =>
      simp only [hlk] at h
      by_cases hc : info.IP = pod.IP ∧ pod.IP ≠ ""
      · rw [if_pos hc] at h
        simp only [Except.ok.injEq, Prod.mk.injEq] at h
        obtain ⟨h1, h2, h3⟩ := h
        subst h3
        simp only [AssignPodIPv4Address, hlk]
        rw [if_pos hc, h1, h2]
      · rw [if_neg hc] at h
        cases h
    | none =>
      simp only [hlk] at h
      obtain ⟨inc, enis, hscan, hds2⟩ :=
        assignPodIPv4AddressUnsafe_ok ds pod ip dn ds2 h
      have hip : ip = pod.IP :=
        assignScan_ip_of_ne pod.IP hne ds.eniIPPools ip dn inc enis hscan
      have hfind : ds.podsIP.find? (fun p => decide (p.1 = NewPodKey pod)) = none := by
        unfold lookupPod at hlk
        exact Option.map_eq_none'.mp hlk
      have hlk2 : lookupPod ds2.podsIP (NewPodKey pod) =
          some { IP := ip, DeviceNumber := dn } := by
        rw [hds2]
        show lookupPod
          (setPodIP ds.podsIP (NewPodKey pod) { IP := ip, DeviceNumber := dn })
          (NewPodKey pod) = _
        rw [setPodIP_absent ds.podsIP (NewPodKey pod) _ hfind]
        exact lookupPod_append_self ds.podsIP (NewPodKey pod) _ hfind
      simp only [AssignPodIPv4Address, hlk2]
      rw [if_pos ⟨hip, hne⟩]

/-- Witness for c2_idempotent_reassign: re-requesting 10.0.0.5 for the
already-bound pod p in scenario S1, twice. -/
theorem c2_idempotent_reassign_witness :
    AssignPodIPv4Address s1Assigned podReqSame = .ok ("10.0.0.5", 1, s1Assigned)
    ∧ AssignPodIPv4Address s1Assigned podReqSame = .ok ("10.0.0.5", 1, s1Assigned) :=
  ⟨(c2_idempotent_reassign s1Assigned podReqSame (by decide)).1
      { IP := "10.0.0.5", DeviceNumber := 1 } (by decide) (by decide),
   (c2_idempotent_reassign s1Assigned podReqSame (by decide)).2
      "10.0.0.5" 1 s1Assigned (by rfl)⟩


/-- On addresses none of which match a non-empty requested IP, `findAddr`
finds nothing. -/
theorem findAddr_none (podIP : String) (hne : podIP ≠ "") :
    ∀ l, (∀ p ∈ l, p.2.address ≠ podIP) → findAddr podIP l = none := by
  intro l
  induction l with
  | nil =>
    intro h
    rfl
  | cons hd tl ih =>
    intro h
    obtain ⟨k, a⟩ := hd
    have hhd : a.address ≠ podIP := h (k, a) (by simp)
    simp only [findAddr]
    rw [if_neg (fun hc => hhd hc.symm)]
    rw [if_neg (fun hc => hne hc.2)]
    rw [ih (fun p hp => h p (by simp [hp]))]

/-- `findAddr` with a non-empty requested IP claims the first address
whose `address` field matches. -/
theorem findAddr_found (podIP : String) (hne : podIP ≠ "") (k : String)
    (a : AddressInfo) (ha : a.address = podIP) :
    ∀ m1 m2, (∀ p ∈ m1, p.2.address ≠ podIP) →
    findAddr podIP (m1 ++ (k, a) :: m2) =
      some (a.address, !a.Assigned, m1 ++ (k, { a with Assigned := true }) :: m2) := by
  intro m1
  induction m1 with
  | nil =>
    intro m2 hm1
    simp only [List.nil_append, findAddr]
    rw [if_pos ha.symm]
  | cons hd tl ih =>
    intro m2 hm1
    obtain ⟨k2, a2⟩ := hd
    have hhd : a2.address ≠ podIP := hm1 (k2, a2) (by simp)
    simp only [List.cons_append, findAddr]
    rw [if_neg (fun hc => hhd hc.symm)]
    rw [if_neg (fun hc => hne hc.2)]
    have hrec := ih m2 (fun p hp => hm1 p (by simp [hp]))
    simp only [List.append_eq, hrec]

/-- `assignScan` with a non-empty requested IP walks past ENIs whose
addresses are exhausted by `findAddr` and claims on the first hit. -/
theorem assignScan_found (podIP : String) (hne : podIP ≠ "") (eni : ENIIPPool)
    (ip : String) (inc : Bool) (addrs2 : List (String × AddressInfo))
    (hfa : findAddr podIP eni.IPv4Addresses = some (ip, inc, addrs2)) :
    ∀ l1 l2, (∀ e ∈ l1, findAddr podIP e.IPv4Addresses = none) →
    assignScan podIP (l1 ++ eni :: l2) =
      some (ip, eni.DeviceNumber, inc,
        l1 ++ { eni with
          IPv4Addresses := addrs2,
          AssignedIPv4Addresses :=
            eni.AssignedIPv4Addresses + (if inc then 1 else 0) } :: l2) := by
  intro l1
  induction l1 with
  | nil =>
    intro l2 hl1
    simp only [List.nil_append, assignScan]
    rw [if_neg (fun hc => hne hc.1), hfa]
  | cons e tl ih =>
    intro l2 hl1
    simp only [List.cons_append, assignScan]
    rw [if_neg (fun hc => hne hc.1)]
    rw [hl1 e (by simp)]
    have hrec := ih l2 (fun x hx => hl1 x (by simp [hx]))
    simp only [List.append_eq, hrec]

/-- An address already assigned is unchanged by re-claiming it. -/
theorem addressInfo_eta (a : AddressInfo) (h : a.Assigned = true) :
    { a with Assigned := true } = a := by
  cases a
  simp_all

/-- C10: when an Address is already assigned (say to pod p1), a different
pod key with no binding that requests exactly that IP succeeds: the call
returns the IP and the owning ENI's device number, appends a second
binding for the new key, and changes nothing else — neither counters nor
any ENI or Address record. -/
theorem c10_shared_ip (ds : DataStore) (pod : K8SPodInfo)
    (l1 l2 : List ENIIPPool) (eni : ENIIPPool)
    (m1 m2 : List (String × AddressInfo)) (k : String) (a : AddressInfo)
    (hlk : lookupPod ds.podsIP (NewPodKey pod) = none)
    (hne : pod.IP ≠ "")
    (hsplit : ds.eniIPPools = l1 ++ eni :: l2)
    (hl1 : ∀ e ∈ l1, ∀ p ∈ e.IPv4Addresses, p.2.address ≠ pod.IP)
    (hm : eni.IPv4Addresses = m1 ++ (k, a) :: m2)
    (hm1 : ∀ p ∈ m1, p.2.address ≠ pod.IP)
    (ha : a.address = pod.IP)
    (hassigned : a.Assigned = true) :
    AssignPodIPv4Address ds pod =
      .ok (pod.IP, eni.DeviceNumber,
        { ds with podsIP := ds.podsIP ++
            [(NewPodKey pod, { IP := pod.IP, DeviceNumber := eni.DeviceNumber })] }) := by
  have hfa : findAddr pod.IP eni.IPv4Addresses =
      some (pod.IP, false, eni.IPv4Addresses) := by
    rw [hm]
    rw [findAddr_found pod.IP hne k a ha m1 m2 hm1]
    rw [addressInfo_eta a hassigned, ha, hassigned]
    simp
  have hscan : assignScan pod.IP ds.eniIPPools =
      some (pod.IP, eni.DeviceNumber, false, ds.eniIPPools) := by
    rw [hsplit]
    rw [assignScan_found pod.IP hne eni pod.IP false eni.IPv4Addresses hfa l1 l2
      (fun e he => findAddr_none pod.IP hne e.IPv4Addresses (hl1 e he))]
    have heni : { eni with
        IPv4Addresses := eni.IPv4Addresses,
        AssignedIPv4Addresses :=
          eni.AssignedIPv4Addresses + (if false then 1 else 0) } = eni := by
      cases eni
      simp
    rw [heni]
  have hfind : ds.podsIP.find? (fun p => decide (p.1 = NewPodKey pod)) = none := by
    unfold lookupPod at hlk
    exact Option.map_eq_none'.mp hlk
  simp only [AssignPodIPv4Address, hlk, assignPodIPv4AddressUnsafe, hscan]
  rw [setPodIP_absent ds.podsIP (NewPodKey pod) _ hfind]
  cases ds
  simp

/-- Witness for c10_shared_ip: pod q requests 10.0.0.5 while it is held by
pod p in the S1 state; both bindings coexist afterwards. -/
theorem c10_shared_ip_witness :
    AssignPodIPv4Address s1Assigned podQReq =
      .ok ("10.0.0.5", 1,
        { s1Assigned with podsIP := s1Assigned.podsIP ++
            [(NewPodKey podQReq, { IP := "10.0.0.5", DeviceNumber := 1 })] }) :=
  c10_shared_ip s1Assigned podQReq [] []
    { createTime := 0, lastUnAssignedTime := 0, IsPrimary := true, id := "eni-a",
      DeviceNumber := 1, AssignedIPv4Addresses := 1,
      IPv4Addresses := [("10.0.0.5",
        { Assigned := true, address := "10.0.0.5", unAssignedTime := 0 })] }
    [] [] "10.0.0.5"
    { Assigned := true, address := "10.0.0.5", unAssignedTime := 0 }
    (by decide) (by decide) (by decide)
    (by intro e he p hp; simp at he) (by decide)
    (by intro p hp; simp at hp) (by decide) (by decide)


/-- Generic first-hit decomposition of a list along a Bool predicate. -/
theorem exists_first_split {α : Type} (P : α → Bool) :
    ∀ l : List α, (∃ x ∈ l, P x = true) →
    ∃ l1 x l2, l = l1 ++ x :: l2 ∧ (∀ y ∈ l1, P y = false) ∧ P x = true := by
  intro l
  induction l with
  | nil =>
    intro h
    obtain ⟨x, hx, _⟩ := h
    cases hx
  | cons hd tl ih =>
    intro h
    by_cases hhd : P hd = true
    · exact ⟨[], hd, tl, by simp, by simp, hhd⟩
    · have htl : ∃ x ∈ tl, P x = true := by
        obtain ⟨x, hx, hPx⟩ := h
        rcases List.mem_cons.mp hx with rfl | hmem
        · exact absurd hPx hhd
        · exact ⟨x, hmem, hPx⟩
      obtain ⟨l1, x, l2, heq, hl1, hPx⟩ := ih htl
      exact ⟨hd :: l1, x, l2, by simp [heq], by
        intro y hy
        rcases List.mem_cons.mp hy with rfl | hmem
        · exact Bool.not_eq_true _ ▸ Bool.of_not_eq_true hhd
        · exact hl1 y hmem, hPx⟩

/-- ENIs holding no assigned copy of `ip` are passed over by the release
scan. -/
theorem unassignScan_none (ip : String) (now : Int) :
    ∀ l, (∀ e ∈ l, assignedOn e ip = false) → unassignScan ip now l = none := by
  intro l
  induction l with
  | nil =>
    intro h
    rfl
  | cons eni tl ih =>
    intro h
    have hhd := h eni (by simp)
    have hrec := ih (fun e he => h e (by simp [he]))
    simp only [unassignScan]
    split
    next p hf =>
      have hpf : p.2.Assigned = false := by
        unfold assignedOn at hhd
        rw [hf] at hhd
        exact hhd
      rw [if_neg (by simp [hpf]), hrec]
    next hf =>
      rw [hrec]

/-- The release scan acts on the first ENI holding an assigned copy of
`ip`, applying exactly the `unassignENI` update. -/
theorem unassignScan_found (ip : String) (now : Int) (eni : ENIIPPool)
    (p : String × AddressInfo)
    (hf : eni.IPv4Addresses.find? (fun q => decide (q.1 = ip)) = some p)
    (hp : p.2.Assigned = true) :
    ∀ l1 l2, (∀ e ∈ l1, assignedOn e ip = false) →
    unassignScan ip now (l1 ++ eni :: l2) =
      some (p.2.address, eni.DeviceNumber, l1 ++ unassignENI eni ip now :: l2) := by
  intro l1
  induction l1 with
  | nil =>
    intro l2 hl1
    simp only [List.nil_append, unassignScan]
    split
    next q hfq =>
      rw [hf] at hfq
      injection hfq with hq
      subst hq
      rw [if_pos hp]
    next hfq =>
      rw [hf] at hfq
      cases hfq
  | cons e tl ih =>
    intro l2 hl1
    have hhd := hl1 e (by simp)
    have hrec := ih l2 (fun x hx => hl1 x (by simp [hx]))
    simp only [List.cons_append, unassignScan]
    split
    next pe hfe =>
      have hpe : pe.2.Assigned = false := by
        unfold assignedOn at hhd
        rw [hfe] at hhd
        exact hhd
      rw [if_neg (by simp [hpe])]
      simp only [List.append_eq, hrec]
    next hfe =>
      simp only [List.append_eq, hrec]

/-- After deleting a key, looking it up fails. -/
theorem lookupPod_filter_self (l : List (PodKey × PodIPInfo)) (k : PodKey) :
    lookupPod (l.filter (fun p => !decide (p.1 = k))) k = none := by
  unfold lookupPod
  rw [Option.map_eq_none']
  rw [List.find?_eq_none]
  intro p hp
  have := (List.mem_filter.mp hp).2
  simp only [Bool.not_eq_eq_eq_not, Bool.not_true, decide_eq_false_iff_not] at this
  simpa using this

/-- C5: release behaviour.  (i) Unknown pod key: UnknownPod error (the
state transition is the identity).  (ii) Binding present but its IP not
assigned on any ENI: UnknownPodIP error.  (iii) Binding present and its IP
assigned on some ENI: the first such ENI (in scan order) is updated by
`unassignENI` — the Address's Assigned flag is cleared and its
last-unassigned time set to now, the ENI's assigned-on-this-ENI counter is
decremented and its last-unassigned time set to now — the global assigned
counter is decremented, the binding is deleted (a subsequent lookup
fails), and the call returns the binding's IP with that ENI's device
number.  The address-field hypothesis in (iii) is the representation
invariant that each Address record stores the IP literal it is keyed by,
which registration guarantees. -/
theorem c5_unassign_spec (ds : DataStore) (pod : K8SPodInfo) (now : Int) :
    (lookupPod ds.podsIP (NewPodKey pod) = none →
      UnAssignPodIPv4Address ds pod now = .error ErrUnknownPod
      ∧ applyOp ds (.unassign pod now) = ds)
    ∧ (∀ info, lookupPod ds.podsIP (NewPodKey pod) = some info →
      (∀ e ∈ ds.eniIPPools, assignedOn e info.IP = false) →
      UnAssignPodIPv4Address ds pod now = .error ErrUnknownPodIP)
    ∧ (∀ info, lookupPod ds.podsIP (NewPodKey pod) = some info →
      (∀ e ∈ ds.eniIPPools, ∀ q ∈ e.IPv4Addresses, q.2.address = q.1) →
      (∃ e ∈ ds.eniIPPools, assignedOn e info.IP = true) →
      ∃ l1 eni l2, ds.eniIPPools = l1 ++ eni :: l2 ∧
        (∀ e ∈ l1, assignedOn e info.IP = false) ∧
        assignedOn eni info.IP = true ∧
        UnAssignPodIPv4Address ds pod now =
          .ok (info.IP, eni.DeviceNumber,
            { ds with
              assigned := ds.assigned - 1,
              eniIPPools := l1 ++ unassignENI eni info.IP now :: l2,
              podsIP := ds.podsIP.filter (fun p => !decide (p.1 = NewPodKey pod)) }) ∧
        lookupPod (ds.podsIP.filter (fun p => !decide (p.1 = NewPodKey pod)))
          (NewPodKey pod) = none) := by
  refine ⟨?_, ?_, ?_⟩
  · intro hlk
    have herr : UnAssignPodIPv4Address ds pod now = .error ErrUnknownPod := by
      simp only [UnAssignPodIPv4Address, hlk]
    exact ⟨herr, by simp only [applyOp, herr]⟩
  · intro info hlk hnone
    simp only [UnAssignPodIPv4Address, hlk]
    rw [unassignScan_none info.IP now ds.eniIPPools hnone]
  · intro info hlk haddr hex
    obtain ⟨l1, eni, l2, heq, hl1, heni⟩ :=
      exists_first_split (fun e => assignedOn e info.IP) ds.eniIPPools hex
    refine ⟨l1, eni, l2, heq, hl1, heni, ?_, lookupPod_filter_self ds.podsIP (NewPodKey pod)⟩
    obtain ⟨p, hf, hp⟩ : ∃ p,
        eni.IPv4Addresses.find? (fun q => decide (q.1 = info.IP)) = some p ∧
        p.2.Assigned = true := by
      unfold assignedOn at heni
      cases hf : eni.IPv4Addresses.find? (fun q => decide (q.1 = info.IP)) with
      | some p =>
        rw [hf] at heni
        exact ⟨p, rfl, heni⟩
      | none =>
        rw [hf] at heni
        cases heni
    have hmemeni : eni ∈ ds.eniIPPools := by
      rw [heq]
      simp
    have haddrp : p.2.address = info.IP := by
      have hmem := List.mem_of_find?_eq_some hf
      have hkey : p.1 = info.IP := by
        have := List.find?_some hf
        simpa using this
      rw [haddr eni hmemeni p hmem, hkey]
    have hscan : unassignScan info.IP now ds.eniIPPools =
        some (info.IP, eni.DeviceNumber, l1 ++ unassignENI eni info.IP now :: l2) := by
      rw [heq]
      rw [unassignScan_found info.IP now eni p hf hp l1 l2 hl1]
      rw [haddrp]
    simp only [UnAssignPodIPv4Address, hlk, hscan]


/-- Witness for c5_unassign_spec: (i) releasing unbound pod q on the S1
setup store; (ii) releasing pod q in the shared-IP state, where its
binding points at an unassigned address; (iii) releasing pod p in
scenario S1. -/
theorem c5_unassign_spec_witness :
    (UnAssignPodIPv4Address s1Store podQReq 5 = .error ErrUnknownPod
      ∧ applyOp s1Store (.unassign podQReq 5) = s1Store)
    ∧ UnAssignPodIPv4Address sharedIPStore podQReq 9 = .error ErrUnknownPodIP
    ∧ (∃ l1 eni l2, s1Assigned.eniIPPools = l1 ++ eni :: l2 ∧
        (∀ e ∈ l1, assignedOn e "10.0.0.5" = false) ∧
        assignedOn eni "10.0.0.5" = true ∧
        UnAssignPodIPv4Address s1Assigned podEmptyReq 5 =
          .ok ("10.0.0.5", eni.DeviceNumber,
            { s1Assigned with
              assigned := s1Assigned.assigned - 1,
              eniIPPools := l1 ++ unassignENI eni "10.0.0.5" 5 :: l2,
              podsIP := s1Assigned.podsIP.filter
                (fun p => !decide (p.1 = NewPodKey podEmptyReq)) }) ∧
        lookupPod (s1Assigned.podsIP.filter
            (fun p => !decide (p.1 = NewPodKey podEmptyReq)))
          (NewPodKey podEmptyReq) = none) :=
  ⟨(c5_unassign_spec s1Store podQReq 5).1 (by decide),
   (c5_unassign_spec sharedIPStore podQReq 9).2.1
     { IP := "10.0.0.5", DeviceNumber := 1 } (by decide) (by decide),
   (c5_unassign_spec s1Assigned podEmptyReq 5).2.2
     { IP := "10.0.0.5", DeviceNumber := 1 } (by decide) (by decide) (by decide)⟩


/-! Generic association-list lemmas: Go map reads, writes and deletes on a
list representation with unique keys. -/

section AssocLemmas

variable {α : Type} {K : Type} [DecidableEq K]

/-- Updating entries none of which match the key is a no-op. -/
theorem map_update_noop (κ : α → K) (g : α → α) (i : K) :
    ∀ l : List α, (∀ e ∈ l, ¬(κ e = i)) →
    l.map (fun e => if κ e = i then g e else e) = l := by
  intro l
  induction l with
  | nil =>
    intro h
    rfl
  | cons hd tl ih =>
    intro h
    simp only [List.map_cons]
    rw [if_neg (h hd (by simp)), ih (fun e he => h e (by simp [he]))]

/-- Deleting a key that is absent is a no-op. -/
theorem filter_key_noop (κ : α → K) (i : K) :
    ∀ l : List α, (∀ e ∈ l, ¬(κ e = i)) →
    l.filter (fun e => !decide (κ e = i)) = l := by
  intro l
  induction l with
  | nil =>
    intro h
    rfl
  | cons hd tl ih =>
    intro h
    simp only [List.filter_cons]
    rw [if_pos (by simp [h hd (by simp)]), ih (fun e he => h e (by simp [he]))]

/-- A `find?` hit on a list with pairwise distinct keys splits the list
around the unique matching element. -/
theorem find?_key_split (κ : α → K) (i : K) (c : α) :
    ∀ l : List α, (l.map κ).Nodup →
    l.find? (fun e => decide (κ e = i)) = some c →
    ∃ l1 l2, l = l1 ++ c :: l2 ∧ (∀ e ∈ l1, ¬(κ e = i)) ∧
      (∀ e ∈ l2, ¬(κ e = i)) ∧ κ c = i := by
  intro l
  induction l with
  | nil =>
    intro _ h
    cases h
  | cons hd tl ih =>
    intro hnd h
    by_cases hhd : κ hd = i
    · rw [List.find?_cons_of_pos _ (by simpa using hhd)] at h
      injection h with h
      subst h
      have hnd2 : κ hd ∉ tl.map κ ∧ (tl.map κ).Nodup := by
        rw [List.map_cons, List.nodup_cons] at hnd
        exact hnd
      refine ⟨[], tl, by simp, by simp, ?_, hhd⟩
      intro e he hei
      have hmem : κ e ∈ tl.map κ := List.mem_map_of_mem κ he
      rw [hei, ← hhd] at hmem
      exact hnd2.1 hmem
    · rw [List.find?_cons_of_neg _ (by simpa using hhd)] at h
      have hnd2 : (tl.map κ).Nodup := by
        rw [List.map_cons, List.nodup_cons] at hnd
        exact hnd.2
      obtain ⟨l1, l2, heq, h1, h2, hc⟩ := ih hnd2 h
      exact ⟨hd :: l1, l2, by simp [heq], by
        intro e he
        rcases List.mem_cons.mp he with rfl | hmem
        · exact hhd
        · exact h1 e hmem, h2, hc⟩

/-- A keyed map-update on a list with pairwise distinct keys rewrites the
unique matching element and nothing else. -/
theorem map_update_split (κ : α → K) (g : α → α) (i : K) (c : α)
    (l : List α) (hnd : (l.map κ).Nodup)
    (hfind : l.find? (fun e => decide (κ e = i)) = some c) :
    ∃ l1 l2, l = l1 ++ c :: l2 ∧ (∀ e ∈ l1, ¬(κ e = i)) ∧
      (∀ e ∈ l2, ¬(κ e = i)) ∧ κ c = i ∧
      l.map (fun e => if κ e = i then g e else e) = l1 ++ g c :: l2 := by
  obtain ⟨l1, l2, heq, h1, h2, hc⟩ := find?_key_split κ i c l hnd hfind
  refine ⟨l1, l2, heq, h1, h2, hc, ?_⟩
  rw [heq, List.map_append, List.map_cons, if_pos hc,
    map_update_noop κ g i l1 h1, map_update_noop κ g i l2 h2]

/-- A keyed delete on a list with pairwise distinct keys removes the
unique matching element and nothing else. -/
theorem filter_key_split (κ : α → K) (i : K) (c : α)
    (l : List α) (hnd : (l.map κ).Nodup)
    (hfind : l.find? (fun e => decide (κ e = i)) = some c) :
    ∃ l1 l2, l = l1 ++ c :: l2 ∧ (∀ e ∈ l1, ¬(κ e = i)) ∧
      (∀ e ∈ l2, ¬(κ e = i)) ∧ κ c = i ∧
      l.filter (fun e => !decide (κ e = i)) = l1 ++ l2 := by
  obtain ⟨l1, l2, heq, h1, h2, hc⟩ := find?_key_split κ i c l hnd hfind
  refine ⟨l1, l2, heq, h1, h2, hc, ?_⟩
  rw [heq, List.filter_append, List.filter_cons,
    if_neg (by simp [hc]), filter_key_noop κ i l1 h1, filter_key_noop κ i l2 h2]

end AssocLemmas

/-! Sum bookkeeping lemmas. -/

theorem sumLens_append (l1 l2 : List ENIIPPool) :
    sumLens (l1 ++ l2) = sumLens l1 + sumLens l2 := by
  simp [sumLens]

theorem sumLens_cons (e : ENIIPPool) (l : List ENIIPPool) :
    sumLens (e :: l) = (e.IPv4Addresses.length : Int) + sumLens l := by
  simp [sumLens]

theorem sumAssignedCounters_append (l1 l2 : List ENIIPPool) :
    sumAssignedCounters (l1 ++ l2) = sumAssignedCounters l1 + sumAssignedCounters l2 := by
  simp [sumAssignedCounters]

theorem sumAssignedCounters_cons (e : ENIIPPool) (l : List ENIIPPool) :
    sumAssignedCounters (e :: l) = e.AssignedIPv4Addresses + sumAssignedCounters l := by
  simp [sumAssignedCounters]

theorem totalAssignedFlags_append (l1 l2 : List ENIIPPool) :
    totalAssignedFlags (l1 ++ l2) = totalAssignedFlags l1 + totalAssignedFlags l2 := by
  simp [totalAssignedFlags]

theorem totalAssignedFlags_cons (e : ENIIPPool) (l : List ENIIPPool) :
    totalAssignedFlags (e :: l) = eniAssignedFlags e + totalAssignedFlags l := by
  simp [totalAssignedFlags]

theorem addrFlags_append (l1 l2 : List (String × AddressInfo)) :
    addrFlags (l1 ++ l2) = addrFlags l1 + addrFlags l2 := by
  simp [addrFlags]

theorem addrFlags_cons (p : String × AddressInfo) (l : List (String × AddressInfo)) :
    addrFlags (p :: l) = (if p.2.Assigned then 1 else 0) + addrFlags l := by
  simp only [addrFlags, List.filter_cons]
  split
  · simp [Nat.add_comm]
  · simp

/-- Under the counter invariant, the global assigned counter equals the
recomputed number of assigned address records. -/
theorem assigned_eq_flags (l : List ENIIPPool)
    (h : ∀ e ∈ l, e.AssignedIPv4Addresses = (eniAssignedFlags e : Int)) :
    sumAssignedCounters l = (totalAssignedFlags l : Int) := by
  induction l with
  | nil => rfl
  | cons e tl ih =>
    rw [sumAssignedCounters_cons, totalAssignedFlags_cons,
      h e (by simp), ih (fun x hx => h x (by simp [hx]))]
    push_cast
    ring


/-- The fresh datastore is well-formed. -/
theorem WF_NewDataStore : WF NewDataStore := by
  refine ⟨?_, ?_, ?_, ?_, ?_, ?_, ?_⟩ <;>
    simp [NewDataStore, sumLens, sumAssignedCounters]

/-- `AddENI` preserves well-formedness. -/
theorem WF_AddENI (ds : DataStore) (eniID : String) (dev : Int) (prim : Bool)
    (now : Int) (ds2 : DataStore) (hwf : WF ds)
    (h : AddENI ds eniID dev prim now = .ok ds2) : WF ds2 := by
  obtain ⟨hids, hkeys, hpods, htot, hassign, hcnt, haddrf⟩ := hwf
  unfold AddENI at h
  split at h
  case isTrue => cases h
  case isFalse hfind =>
    simp only [Except.ok.injEq] at h
    subst h
    have hnone : ds.eniIPPools.find? (fun e => decide (e.id = eniID)) = none := by
      cases hf : ds.eniIPPools.find? (fun e => decide (e.id = eniID)) with
      | none => rfl
      | some c =>
        rw [hf] at hfind
        simp at hfind
    have hnotin : ∀ e ∈ ds.eniIPPools, ¬(e.id = eniID) := by
      intro e he
      simpa using List.find?_eq_none.mp hnone e he
    refine ⟨?_, ?_, ?_, ?_, ?_, ?_, ?_⟩
    · dsimp only
      simp only [List.map_append, List.map_cons, List.map_nil]
      rw [List.nodup_append]
      refine ⟨hids, by simp, ?_⟩
      intro a ha hb
      simp only [List.mem_singleton] at hb
      obtain ⟨e, he, rfl⟩ := List.mem_map.mp ha
      exact hnotin e he hb
    · intro e he
      dsimp only at he
      rcases List.mem_append.mp he with hold | hnew
      · exact hkeys e hold
      · simp only [List.mem_singleton] at hnew
        subst hnew
        simp
    · exact hpods
    · dsimp only
      rw [sumLens_append, htot]
      simp [sumLens]
    · dsimp only
      rw [sumAssignedCounters_append, hassign]
      simp [sumAssignedCounters]
    · intro e he
      dsimp only at he
      rcases List.mem_append.mp he with hold | hnew
      · exact hcnt e hold
      · simp only [List.mem_singleton] at hnew
        subst hnew
        simp [eniAssignedFlags, addrFlags]
    · intro e he p hp
      dsimp only at he
      rcases List.mem_append.mp he with hold | hnew
      · exact haddrf e hold p hp
      · simp only [List.mem_singleton] at hnew
        subst hnew
        simp at hp

/-- `AddENIIPv4Address` preserves well-formedness. -/
theorem WF_AddENIIPv4Address (ds : DataStore) (eniID ipv4 : String)
    (ds2 : DataStore) (hwf : WF ds)
    (h : AddENIIPv4Address ds eniID ipv4 = .ok ds2) : WF ds2 := by
  obtain ⟨hids, hkeys, hpods, htot, hassign, hcnt, haddrf⟩ := hwf
  unfold AddENIIPv4Address at h
  cases hfind : ds.eniIPPools.find? (fun e => decide (e.id = eniID)) with
  | none =>
    rw [hfind] at h
    cases h
  | some curENI =>
    simp only [hfind] at h
    split at h
    case isTrue => cases h
    case isFalse hdup =>
      simp only [Except.ok.injEq] at h
      subst h
      have hdupnone : curENI.IPv4Addresses.find? (fun p => decide (p.1 = ipv4)) = none := by
        cases hf : curENI.IPv4Addresses.find? (fun p => decide (p.1 = ipv4)) with
        | none => rfl
        | some c =>
          rw [hf] at hdup
          simp at hdup
      have hkeyfresh : ∀ p ∈ curENI.IPv4Addresses, ¬(p.1 = ipv4) := by
        intro p hp
        simpa using List.find?_eq_none.mp hdupnone p hp
      obtain ⟨l1, l2, heq, h1, h2, hc, hmap⟩ :=
        map_update_split (fun e => e.id)
          (fun e => { e with IPv4Addresses := e.IPv4Addresses ++
            [(ipv4, { Assigned := false, address := ipv4, unAssignedTime := 0 })] })
          eniID curENI ds.eniIPPools hids hfind
      have hmapG : ds.eniIPPools.map (fun e =>
          if e.id = eniID then
            { e with IPv4Addresses := e.IPv4Addresses ++
                [(ipv4, { Assigned := false, address := ipv4, unAssignedTime := 0 })] }
          else e) = l1 ++ { curENI with IPv4Addresses := curENI.IPv4Addresses ++
            [(ipv4, { Assigned := false, address := ipv4, unAssignedTime := 0 })] } :: l2 :=
        hmap
      have hmem1 : ∀ e ∈ l1, e ∈ ds.eniIPPools := by
        intro e he
        rw [heq]
        simp [he]
      have hmem2 : ∀ e ∈ l2, e ∈ ds.eniIPPools := by
        intro e he
        rw [heq]
        simp [he]
      have hmemc : curENI ∈ ds.eniIPPools := by
        rw [heq]
        simp
      refine ⟨?_, ?_, ?_, ?_, ?_, ?_, ?_⟩
      · dsimp only
        rw [hmapG]
        rw [heq] at hids
        simp only [List.map_append, List.map_cons] at hids ⊢
        simpa using hids
      · intro e he
        dsimp only at he
        rw [hmapG] at he
        rcases List.mem_append.mp he with hin1 | hin2
        · exact hkeys e (hmem1 e hin1)
        · rcases List.mem_cons.mp hin2 with rfl | hin3
          · dsimp only
            simp only [List.map_append, List.map_cons, List.map_nil]
            rw [List.nodup_append]
            refine ⟨hkeys curENI hmemc, by simp, ?_⟩
            intro a ha hb
            simp only [List.mem_singleton] at hb
            obtain ⟨p, hp, rfl⟩ := List.mem_map.mp ha
            exact hkeyfresh p hp hb
          · exact hkeys e (hmem2 e hin3)
      · exact hpods
      · dsimp only
        rw [hmapG]
        rw [heq] at htot
        rw [sumLens_append, sumLens_cons] at htot ⊢
        dsimp only
        simp only [List.length_append, List.length_cons, List.length_nil]
        push_cast
        omega
      · dsimp only
        rw [hmapG]
        rw [heq] at hassign
        rw [sumAssignedCounters_append, sumAssignedCounters_cons] at hassign ⊢
        exact hassign
      · intro e he
        dsimp only at he
        rw [hmapG] at he
        rcases List.mem_append.mp he with hin1 | hin2
        · exact hcnt e (hmem1 e hin1)
        · rcases List.mem_cons.mp hin2 with rfl | hin3
          · dsimp only
            have hfl : addrFlags (curENI.IPv4Addresses ++
                [(ipv4, { Assigned := false, address := ipv4, unAssignedTime := 0 })]) =
                addrFlags curENI.IPv4Addresses := by
              rw [addrFlags_append]
              simp [addrFlags]
            show curENI.AssignedIPv4Addresses = ((addrFlags _ : Nat) : Int)
            rw [hfl]
            exact hcnt curENI hmemc
          · exact hcnt e (hmem2 e hin3)
      · intro e he p hp
        dsimp only at he
        rw [hmapG] at he
        rcases List.mem_append.mp he with hin1 | hin2
        · exact haddrf e (hmem1 e hin1) p hp
        · rcases List.mem_cons.mp hin2 with rfl | hin3
          · dsimp only at hp
            rcases List.mem_append.mp hp with hpold | hpnew
            · exact haddrf curENI hmemc p hpold
            · simp only [List.mem_singleton] at hpnew
              subst hpnew
              rfl
          · exact haddrf e (hmem2 e hin3) p hp


/-- Successful `findAddr` decomposed: the first matching Address is
flagged assigned, everything else is untouched. -/
theorem findAddr_split (podIP : String) :
    ∀ l ip inc l2, findAddr podIP l = some (ip, inc, l2) →
    ∃ m1 k a m2, l = m1 ++ (k, a) :: m2 ∧
      l2 = m1 ++ (k, { a with Assigned := true }) :: m2 ∧
      inc = !a.Assigned ∧ ip = a.address := by
  intro l
  induction l with
  | nil =>
    intro ip inc l2 h
    cases h
  | cons hd tl ih =>
    intro ip inc l2 h
    obtain ⟨k0, a0⟩ := hd
    simp only [findAddr] at h
    split at h
    case isTrue h1 =>
      simp only [Option.some.injEq, Prod.mk.injEq] at h
      obtain ⟨hip, hinc, hl2⟩ := h
      refine ⟨[], k0, a0, tl, by simp, ?_, hinc.symm, hip.symm⟩
      rw [← hl2]
      simp
    case isFalse h1 =>
      split at h
      case isTrue h2 =>
        simp only [Option.some.injEq, Prod.mk.injEq] at h
        obtain ⟨hip, hinc, hl2⟩ := h
        refine ⟨[], k0, a0, tl, by simp, ?_, ?_, hip.symm⟩
        · rw [← hl2]
          simp
        · rw [h2.1, ← hinc]
          rfl
      case isFalse h2 =>
        cases hrec : findAddr podIP tl with
        | none =>
          rw [hrec] at h
          cases h
        | some r =>
          obtain ⟨ip3, inc3, l3⟩ := r
          rw [hrec] at h
          simp only [Option.some.injEq, Prod.mk.injEq] at h
          obtain ⟨hip, hinc, hl2⟩ := h
          obtain ⟨m1, k, a, m2, hteq, hl3, hinc3, hip3⟩ := ih ip3 inc3 l3 hrec
          refine ⟨(k0, a0) :: m1, k, a, m2, by simp [hteq], ?_,
            hinc ▸ hinc3, hip ▸ hip3⟩
          rw [← hl2, hl3]
          simp

/-- Successful `assignScan` decomposed: exactly one ENI is rewritten,
namely the first one on which `findAddr` succeeds. -/
theorem assignScan_split (podIP : String) :
    ∀ l ip dn inc l2, assignScan podIP l = some (ip, dn, inc, l2) →
    ∃ g1 eni g2 addrs2, l = g1 ++ eni :: g2 ∧ dn = eni.DeviceNumber ∧
      findAddr podIP eni.IPv4Addresses = some (ip, inc, addrs2) ∧
      l2 = g1 ++ { eni with
        IPv4Addresses := addrs2,
        AssignedIPv4Addresses :=
          eni.AssignedIPv4Addresses + (if inc then 1 else 0) } :: g2 := by
  intro l
  induction l with
  | nil =>
    intro ip dn inc l2 h
    cases h
  | cons eni tl ih =>
    intro ip dn inc l2 h
    simp only [assignScan] at h
    split at h
    case isTrue hskip =>
      cases hrec : assignScan podIP tl with
      | none =>
        rw [hrec] at h
        cases h
      | some r =>
        obtain ⟨ip3, dn3, inc3, l3⟩ := r
        rw [hrec] at h
        simp only [Option.some.injEq, Prod.mk.injEq] at h
        obtain ⟨hip, hdn, hinc, hl2⟩ := h
        obtain ⟨g1, eni4, g2, addrs4, hteq, hdn4, hfa4, hl3⟩ := ih ip3 dn3 inc3 l3 hrec
        subst hip hdn hinc
        refine ⟨eni :: g1, eni4, g2, addrs4, by simp [hteq], hdn4, hfa4, ?_⟩
        rw [← hl2, hl3]
        simp
    case isFalse hskip =>
      cases hfa : findAddr podIP eni.IPv4Addresses with
      | some r =>
        obtain ⟨ip0, inc0, addrs0⟩ := r
        rw [hfa] at h
        simp only [Option.some.injEq, Prod.mk.injEq] at h
        obtain ⟨hip, hdn, hinc, hl2⟩ := h
        subst hip hdn hinc
        exact ⟨[], eni, tl, addrs0, by simp, rfl, hfa, by rw [← hl2]; simp⟩
      | none =>
        rw [hfa] at h
        cases hrec : assignScan podIP tl with
        | none =>
          rw [hrec] at h
          cases h
        | some r =>
          obtain ⟨ip3, dn3, inc3, l3⟩ := r
          rw [hrec] at h
          simp only [Option.some.injEq, Prod.mk.injEq] at h
          obtain ⟨hip, hdn, hinc, hl2⟩ := h
          obtain ⟨g1, eni4, g2, addrs4, hteq, hdn4, hfa4, hl3⟩ := ih ip3 dn3 inc3 l3 hrec
          subst hip hdn hinc
          refine ⟨eni :: g1, eni4, g2, addrs4, by simp [hteq], hdn4, hfa4, ?_⟩
          rw [← hl2, hl3]
          simp

/-- Successful `unassignScan` decomposed: exactly the first ENI holding
the key with its flag set is rewritten by `unassignENI`. -/
theorem unassignScan_split (ip : String) (now : Int) :
    ∀ l a d l2, unassignScan ip now l = some (a, d, l2) →
    ∃ g1 eni g2 p, l = g1 ++ eni :: g2 ∧
      eni.IPv4Addresses.find? (fun q => decide (q.1 = ip)) = some p ∧
      p.2.Assigned = true ∧ a = p.2.address ∧ d = eni.DeviceNumber ∧
      l2 = g1 ++ unassignENI eni ip now :: g2 := by
  intro l
  induction l with
  | nil =>
    intro a d l2 h
    cases h
  | cons eni tl ih =>
    intro a d l2 h
    simp only [unassignScan] at h
    split at h
    next p hf =>
      split at h
      case isTrue hass =>
        simp only [Option.some.injEq, Prod.mk.injEq] at h
        obtain ⟨ha, hd, hl2⟩ := h
        exact ⟨[], eni, tl, p, by simp, hf, hass, ha.symm, hd.symm, by rw [← hl2]; simp⟩
      case isFalse hass =>
        cases hrec : unassignScan ip now tl with
        | none =>
          rw [hrec] at h
          cases h
        | some r =>
          obtain ⟨a3, d3, l3⟩ := r
          rw [hrec] at h
          simp only [Option.some.injEq, Prod.mk.injEq] at h
          obtain ⟨ha, hd, hl2⟩ := h
          obtain ⟨g1, eni4, g2, p4, hteq, hf4, hass4, ha4, hd4, hl3⟩ := ih a3 d3 l3 hrec
          subst ha hd
          refine ⟨eni :: g1, eni4, g2, p4, by simp [hteq], hf4, hass4, ha4, hd4, ?_⟩
          rw [← hl2, hl3]
          simp
    next hf =>
      cases hrec : unassignScan ip now tl with
      | none =>
        rw [hrec] at h
        cases h
      | some r =>
        obtain ⟨a3, d3, l3⟩ := r
        rw [hrec] at h
        simp only [Option.some.injEq, Prod.mk.injEq] at h
        obtain ⟨ha, hd, hl2⟩ := h
        obtain ⟨g1, eni4, g2, p4, hteq, hf4, hass4, ha4, hd4, hl3⟩ := ih a3 d3 l3 hrec
        subst ha hd
        refine ⟨eni :: g1, eni4, g2, p4, by simp [hteq], hf4, hass4, ha4, hd4, ?_⟩
        rw [← hl2, hl3]
        simp


/-- Successful assign decomposed: either the existing binding is returned
with the state unchanged, or the datastore had no binding and exactly one
Address on one ENI is claimed, with a new binding appended. -/
theorem assign_ok_main (ds : DataStore) (pod : K8SPodInfo) (ip : String) (dn : Int)
    (ds2 : DataStore) (h : AssignPodIPv4Address ds pod = .ok (ip, dn, ds2)) :
    ds2 = ds ∨
    (lookupPod ds.podsIP (NewPodKey pod) = none ∧
     ∃ g1 eni g2 m1 k a m2,
      ds.eniIPPools = g1 ++ eni :: g2 ∧
      eni.IPv4Addresses = m1 ++ (k, a) :: m2 ∧
      ip = a.address ∧ dn = eni.DeviceNumber ∧
      ds2 = { ds with
        eniIPPools := g1 ++ { eni with
          IPv4Addresses := m1 ++ (k, { a with Assigned := true }) :: m2,
          AssignedIPv4Addresses :=
            eni.AssignedIPv4Addresses + (if !a.Assigned then 1 else 0) } :: g2,
        assigned := ds.assigned + (if !a.Assigned then 1 else 0),
        podsIP := ds.podsIP ++ [(NewPodKey pod, { IP := ip, DeviceNumber := dn })] }) := by
  cases hlk : lookupPod ds.podsIP (NewPodKey pod) with
  | some info =>
    simp only [AssignPodIPv4Address, hlk] at h
    split at h
    case isTrue =>
      simp only [Except.ok.injEq, Prod.mk.injEq] at h
      exact Or.inl h.2.2.symm
    case isFalse =>
      cases h
  | none =>
    simp only [AssignPodIPv4Address, hlk] at h
    obtain ⟨inc, enis, hscan, hds2⟩ := assignPodIPv4AddressUnsafe_ok ds pod ip dn ds2 h
    obtain ⟨g1, eni, g2, addrs2, hg, hdn, hfa, henis⟩ :=
      assignScan_split pod.IP ds.eniIPPools ip dn inc enis hscan
    obtain ⟨m1, k, a, m2, hm, haddrs2, hinc, hip⟩ :=
      findAddr_split pod.IP eni.IPv4Addresses ip inc addrs2 hfa
    have hfindp : ds.podsIP.find? (fun p => decide (p.1 = NewPodKey pod)) = none := by
      have hlk2 := hlk
      unfold lookupPod at hlk2
      exact Option.map_eq_none'.mp hlk2
    right
    refine ⟨rfl, g1, eni, g2, m1, k, a, m2, hg, hm, hip, hdn, ?_⟩
    rw [hds2, henis, haddrs2, hinc]
    rw [setPodIP_absent ds.podsIP (NewPodKey pod) _ hfindp]

/-- Successful release decomposed: the binding existed, exactly one ENI is
rewritten by `unassignENI`, the binding is deleted and the counter drops. -/
theorem unassign_ok_main (ds : DataStore) (pod : K8SPodInfo) (now : Int)
    (ip : String) (dn : Int) (ds2 : DataStore)
    (h : UnAssignPodIPv4Address ds pod now = .ok (ip, dn, ds2)) :
    ∃ info g1 eni g2 p,
      lookupPod ds.podsIP (NewPodKey pod) = some info ∧
      ds.eniIPPools = g1 ++ eni :: g2 ∧
      eni.IPv4Addresses.find? (fun q => decide (q.1 = info.IP)) = some p ∧
      p.2.Assigned = true ∧ ip = p.2.address ∧ dn = eni.DeviceNumber ∧
      ds2 = { ds with
        assigned := ds.assigned - 1,
        eniIPPools := g1 ++ unassignENI eni info.IP now :: g2,
        podsIP := ds.podsIP.filter (fun q => !decide (q.1 = NewPodKey pod)) } := by
  cases hlk : lookupPod ds.podsIP (NewPodKey pod) with
  | none =>
    simp only [UnAssignPodIPv4Address, hlk] at h
    cases h
  | some info =>
    simp only [UnAssignPodIPv4Address, hlk] at h
    cases hscan : unassignScan info.IP now ds.eniIPPools with
    | none =>
      rw [hscan] at h
      cases h
    | some r =>
      obtain ⟨a0, d0, l0⟩ := r
      rw [hscan] at h
      simp only [Except.ok.injEq, Prod.mk.injEq] at h
      obtain ⟨ha, hd, hds2⟩ := h
      obtain ⟨g1, eni, g2, p, hg, hf, hass, ha0, hd0, hl0⟩ :=
        unassignScan_split info.IP now ds.eniIPPools a0 d0 l0 hscan
      subst ha hd
      refine ⟨info, g1, eni, g2, p, rfl, hg, hf, hass, ha0, hd0, ?_⟩
      rw [← hds2, hl0]

/-- The keyed flag-clearing map of `unassignENI` preserves the key list. -/
theorem map_fst_update (ip : String) (now : Int) :
    ∀ l : List (String × AddressInfo),
    (l.map (fun q => if q.1 = ip then
      (q.1, { q.2 with Assigned := false, unAssignedTime := now }) else q)).map Prod.fst
      = l.map Prod.fst := by
  intro l
  induction l with
  | nil => rfl
  | cons hd tl ih =>
    simp only [List.map_cons]
    rw [ih]
    by_cases hk : hd.1 = ip
    · rw [if_pos hk]
    · rw [if_neg hk]

/-- In a list with pairwise distinct keys, the two sides of an element's
split carry different keys. -/
theorem nodup_split_unique {α K : Type} [DecidableEq K] (κ : α → K) (c : α)
    (l1 l2 : List α) (hnd : ((l1 ++ c :: l2).map κ).Nodup) :
    (∀ e ∈ l1, ¬(κ e = κ c)) ∧ (∀ e ∈ l2, ¬(κ e = κ c)) := by
  rw [List.map_append, List.nodup_append] at hnd
  obtain ⟨hnd1, hnd2, hdisj⟩ := hnd
  rw [List.map_cons, List.nodup_cons] at hnd2
  constructor
  · intro e he hk
    exact hdisj (List.mem_map_of_mem κ he) (by simp [hk])
  · intro e he hk
    exact hnd2.1 (hk ▸ List.mem_map_of_mem κ he)

/-- `AssignPodIPv4Address` preserves well-formedness. -/
theorem WF_assign (ds : DataStore) (pod : K8SPodInfo) (ip : String) (dn : Int)
    (ds2 : DataStore) (hwf : WF ds)
    (h : AssignPodIPv4Address ds pod = .ok (ip, dn, ds2)) : WF ds2 := by
  rcases assign_ok_main ds pod ip dn ds2 h with heq |
    ⟨hlk, g1, eni, g2, m1, k, a, m2, hg, hm, hip, hdn, hds2⟩
  · rw [heq]
    exact hwf
  · obtain ⟨hids, hkeys, hpods, htot, hassign, hcnt, haddrf⟩ := hwf
    subst hds2
    have hmemeni : eni ∈ ds.eniIPPools := by
      rw [hg]
      simp
    have hnotink : ∀ p ∈ ds.podsIP, ¬(p.1 = NewPodKey pod) := by
      intro p hp
      have hlk2 := hlk
      unfold lookupPod at hlk2
      simpa using List.find?_eq_none.mp (Option.map_eq_none'.mp hlk2) p hp
    refine ⟨?_, ?_, ?_, ?_, ?_, ?_, ?_⟩
    · dsimp only
      rw [hg] at hids
      simp only [List.map_append, List.map_cons] at hids ⊢
      exact hids
    · intro e he
      dsimp only at he
      rcases List.mem_append.mp he with hin1 | hin2
      · exact hkeys e (by rw [hg]; simp [hin1])
      · rcases List.mem_cons.mp hin2 with rfl | hin3
        · dsimp only
          have hold := hkeys eni hmemeni
          rw [hm] at hold
          simpa using hold
        · exact hkeys e (by rw [hg]; simp [hin3])
    · dsimp only
      simp only [List.map_append, List.map_cons, List.map_nil]
      rw [List.nodup_append]
      refine ⟨hpods, by simp, ?_⟩
      intro x hx hb
      simp only [List.mem_singleton] at hb
      obtain ⟨p, hp, rfl⟩ := List.mem_map.mp hx
      exact hnotink p hp hb
    · dsimp only
      rw [hg] at htot
      rw [sumLens_append, sumLens_cons] at htot ⊢
      dsimp only
      rw [hm] at htot
      simp only [List.length_append, List.length_cons] at htot ⊢
      exact htot
    · dsimp only
      rw [hg] at hassign
      rw [sumAssignedCounters_append, sumAssignedCounters_cons] at hassign ⊢
      dsimp only
      omega
    · intro e he
      dsimp only at he
      rcases List.mem_append.mp he with hin1 | hin2
      · exact hcnt e (by rw [hg]; simp [hin1])
      · rcases List.mem_cons.mp hin2 with rfl | hin3
        · have hold := hcnt eni hmemeni
          simp only [eniAssignedFlags] at hold ⊢
          rw [hm] at hold
          rw [addrFlags_append, addrFlags_cons] at hold
          rw [addrFlags_append, addrFlags_cons]
          cases hA : a.Assigned
          · simp only [hA] at hold ⊢
            simp at hold ⊢
            omega
          · simp only [hA] at hold ⊢
            simp at hold ⊢
            omega
        · exact hcnt e (by rw [hg]; simp [hin3])
    · intro e he p hp
      dsimp only at he
      rcases List.mem_append.mp he with hin1 | hin2
      · exact haddrf e (by rw [hg]; simp [hin1]) p hp
      · rcases List.mem_cons.mp hin2 with rfl | hin3
        · dsimp only at hp
          rcases List.mem_append.mp hp with hp1 | hp2
          · exact haddrf eni hmemeni p (by rw [hm]; simp [hp1])
          · rcases List.mem_cons.mp hp2 with rfl | hp3
            · show a.address = k
              exact haddrf eni hmemeni (k, a) (by rw [hm]; simp)
            · exact haddrf eni hmemeni p (by rw [hm]; simp [hp3])
        · exact haddrf e (by rw [hg]; simp [hin3]) p hp


/-- `UnAssignPodIPv4Address` preserves well-formedness. -/
theorem WF_unassign (ds : DataStore) (pod : K8SPodInfo) (now : Int)
    (ip : String) (dn : Int) (ds2 : DataStore) (hwf : WF ds)
    (h : UnAssignPodIPv4Address ds pod now = .ok (ip, dn, ds2)) : WF ds2 := by
  obtain ⟨info, g1, eni, g2, p, hlk, hg, hf, hass, hip, hdn, hds2⟩ :=
    unassign_ok_main ds pod now ip dn ds2 h
  obtain ⟨hids, hkeys, hpods, htot, hassign, hcnt, haddrf⟩ := hwf
  subst hds2
  have hmemeni : eni ∈ ds.eniIPPools := by
    rw [hg]
    simp
  obtain ⟨m1, m2, hm, hm1, hm2, hpk, hamap⟩ :=
    map_update_split (fun q => q.1)
      (fun q => (q.1, { q.2 with Assigned := false, unAssignedTime := now }))
      info.IP p eni.IPv4Addresses (hkeys eni hmemeni) hf
  have hamapG : eni.IPv4Addresses.map (fun q =>
      if q.1 = info.IP then (q.1, { q.2 with Assigned := false, unAssignedTime := now })
      else q) = m1 ++ (p.1, { p.2 with Assigned := false, unAssignedTime := now }) :: m2 :=
    hamap
  have heni2 : (unassignENI eni info.IP now).IPv4Addresses =
      m1 ++ (p.1, { p.2 with Assigned := false, unAssignedTime := now }) :: m2 := by
    simp only [unassignENI]
    exact hamapG
  refine ⟨?_, ?_, ?_, ?_, ?_, ?_, ?_⟩
  · dsimp only
    rw [hg] at hids
    simp only [List.map_append, List.map_cons] at hids ⊢
    exact hids
  · intro e he
    dsimp only at he
    rcases List.mem_append.mp he with hin1 | hin2
    · exact hkeys e (by rw [hg]; simp [hin1])
    · rcases List.mem_cons.mp hin2 with rfl | hin3
      · show ((unassignENI eni info.IP now).IPv4Addresses.map (fun q => q.1)).Nodup
        rw [heni2]
        have hold := hkeys eni hmemeni
        rw [hm] at hold
        simpa using hold
      · exact hkeys e (by rw [hg]; simp [hin3])
  · dsimp only
    have hsub : (ds.podsIP.filter (fun q => !decide (q.1 = NewPodKey pod))).map
        (fun q => q.1) |>.Sublist (ds.podsIP.map (fun q => q.1)) :=
      (List.filter_sublist ds.podsIP).map (fun q => q.1)
    exact hpods.sublist hsub
  · dsimp only
    rw [hg] at htot
    rw [sumLens_append, sumLens_cons] at htot ⊢
    rw [heni2]
    rw [hm] at htot
    simp only [List.length_append, List.length_cons] at htot ⊢
    exact htot
  · dsimp only
    rw [hg] at hassign
    rw [sumAssignedCounters_append, sumAssignedCounters_cons] at hassign ⊢
    simp only [unassignENI]
    omega
  · intro e he
    dsimp only at he
    rcases List.mem_append.mp he with hin1 | hin2
    · exact hcnt e (by rw [hg]; simp [hin1])
    · rcases List.mem_cons.mp hin2 with rfl | hin3
      · have hold := hcnt eni hmemeni
        simp only [eniAssignedFlags] at hold ⊢
        rw [heni2]
        rw [hm] at hold
        rw [addrFlags_append, addrFlags_cons] at hold
        rw [addrFlags_append, addrFlags_cons]
        simp only [hass] at hold
        show (unassignENI eni info.IP now).AssignedIPv4Addresses = _
        simp only [unassignENI]
        simp at hold ⊢
        omega
      · exact hcnt e (by rw [hg]; simp [hin3])
  · intro e he q hq
    dsimp only at he
    rcases List.mem_append.mp he with hin1 | hin2
    · exact haddrf e (by rw [hg]; simp [hin1]) q hq
    · rcases List.mem_cons.mp hin2 with rfl | hin3
      · rw [heni2] at hq
        rcases List.mem_append.mp hq with hq1 | hq2
        · exact haddrf eni hmemeni q (by rw [hm]; simp [hq1])
        · rcases List.mem_cons.mp hq2 with rfl | hq3
          · show p.2.address = p.1
            exact haddrf eni hmemeni p (by rw [hm]; simp)
          · exact haddrf eni hmemeni q (by rw [hm]; simp [hq3])
      · exact haddrf e (by rw [hg]; simp [hin3]) q hq

/-- `FreeENI` preserves well-formedness. -/
theorem WF_free (ds : DataStore) (now : Int) (id0 : String) (ds2 : DataStore)
    (hwf : WF ds) (h : FreeENI ds now = .ok (id0, ds2)) : WF ds2 := by
  obtain ⟨hids, hkeys, hpods, htot, hassign, hcnt, haddrf⟩ := hwf
  cases hdel : getDeletableENI ds now with
  | none =>
    simp [FreeENI, hdel] at h
  | some c =>
    simp only [FreeENI, hdel, Except.ok.injEq, Prod.mk.injEq] at h
    obtain ⟨hid, hds2⟩ := h
    subst hds2
    have hmemc : c ∈ ds.eniIPPools :=
      List.mem_of_find?_eq_some (by unfold getDeletableENI at hdel; exact hdel)
    obtain ⟨l1, l2, hsplit⟩ := List.append_of_mem hmemc
    have hnd2 := hids
    rw [hsplit] at hnd2
    obtain ⟨h1, h2⟩ := nodup_split_unique (fun e => e.id) c l1 l2 hnd2
    have hfilter : ds.eniIPPools.filter (fun e => !decide (e.id = c.id)) = l1 ++ l2 := by
      rw [hsplit, List.filter_append, List.filter_cons, if_neg (by simp)]
      rw [filter_key_noop (fun e => e.id) c.id l1 h1,
        filter_key_noop (fun e => e.id) c.id l2 h2]
    refine ⟨?_, ?_, ?_, ?_, ?_, ?_, ?_⟩
    · dsimp only
      rw [hfilter]
      rw [hsplit] at hids
      simp only [List.map_append, List.map_cons, List.nodup_append] at hids ⊢
      obtain ⟨ha, hb, hc2⟩ := hids
      rw [List.nodup_cons] at hb
      refine ⟨ha, hb.2, ?_⟩
      intro x hx hb2
      exact hc2 hx (by simp [hb2])
    · intro e he
      dsimp only at he
      rw [hfilter] at he
      rcases List.mem_append.mp he with hin | hin
      · exact hkeys e (by rw [hsplit]; simp [hin])
      · exact hkeys e (by rw [hsplit]; simp [hin])
    · exact hpods
    · dsimp only
      rw [hfilter]
      rw [hsplit] at htot
      rw [sumLens_append, sumLens_cons] at htot
      rw [sumLens_append]
      omega
    · dsimp only
      rw [hfilter]
      rw [hsplit] at hassign
      rw [sumAssignedCounters_append, sumAssignedCounters_cons] at hassign
      rw [sumAssignedCounters_append]
      omega
    · intro e he
      dsimp only at he
      rw [hfilter] at he
      rcases List.mem_append.mp he with hin | hin
      · exact hcnt e (by rw [hsplit]; simp [hin])
      · exact hcnt e (by rw [hsplit]; simp [hin])
    · intro e he q hq
      dsimp only at he
      rw [hfilter] at he
      rcases List.mem_append.mp he with hin | hin
      · exact haddrf e (by rw [hsplit]; simp [hin]) q hq
      · exact haddrf e (by rw [hsplit]; simp [hin]) q hq

/-- Every operation preserves well-formedness. -/
theorem WF_applyOp (ds : DataStore) (op : Op) (hwf : WF ds) : WF (applyOp ds op) := by
  cases op with
  | addENI e d p n =>
    simp only [applyOp]
    cases hop : AddENI ds e d p n with
    | ok ds2 => exact WF_AddENI ds e d p n ds2 hwf hop
    | error _ => exact hwf
  | addIP e ip =>
    simp only [applyOp]
    cases hop : AddENIIPv4Address ds e ip with
    | ok ds2 => exact WF_AddENIIPv4Address ds e ip ds2 hwf hop
    | error _ => exact hwf
  | assign pod =>
    simp only [applyOp]
    cases hop : AssignPodIPv4Address ds pod with
    | ok r => exact WF_assign ds pod r.1 r.2.1 r.2.2 hwf (by rw [hop])
    | error _ => exact hwf
  | unassign pod n =>
    simp only [applyOp]
    cases hop : UnAssignPodIPv4Address ds pod n with
    | ok r => exact WF_unassign ds pod n r.1 r.2.1 r.2.2 hwf (by rw [hop])
    | error _ => exact hwf
  | free n =>
    simp only [applyOp]
    cases hop : FreeENI ds n with
    | ok r => exact WF_free ds n r.1 r.2 hwf (by rw [hop])
    | error _ => exact hwf

/-- Every reachable state is well-formed. -/
theorem WF_runOps (ops : List Op) : WF (runOps ops) := by
  suffices hgen : ∀ (l : List Op) (ds : DataStore), WF ds → WF (l.foldl applyOp ds) by
    exact hgen ops NewDataStore WF_NewDataStore
  intro l
  induction l with
  | nil =>
    intro ds hwf
    exact hwf
  | cons op tl ih =>
    intro ds hwf
    exact ih (applyOp ds op) (WF_applyOp ds op hwf)


/-- C1 counterexample: after register-ENI, register-IP, assign p (no
requested IP), assign q (requested IP equal to p's address) and release p
— every call succeeding — the surviving binding of q points at an Address
whose assigned flag is false, so the claimed conjunction of invariants
fails on this reachable state (its pod-binding part is violated). -/
theorem c1_counterexample :
    ¬ ((runOps sharedIPOps).total = sumLens (runOps sharedIPOps).eniIPPools
      ∧ (runOps sharedIPOps).assigned = sumAssignedCounters (runOps sharedIPOps).eniIPPools
      ∧ podsConsistent (runOps sharedIPOps) = true) := by
  intro h
  exact absurd h.2.2 (by decide)

/-- C1 (amended): for every datastore state reachable by any finite
sequence of register-ENI, register-IP, assign, release and free-ENI
operations (failed calls included), the sum over all ENIs of
assigned-on-this-ENI equals the global assigned counter and the sum over
all ENIs of the number of Address records equals the global total
counter.  (The pod-binding part of the original claim is refuted by the
counterexample: after two pod keys are bound to one address via the
requested-ip path and one of them is released, the remaining binding
points at an unassigned Address.) -/
theorem c1_sums_invariant (ops : List Op) :
    (runOps ops).total = sumLens (runOps ops).eniIPPools
    ∧ (runOps ops).assigned = sumAssignedCounters (runOps ops).eniIPPools := by
  obtain ⟨-, -, -, htot, hassign, -, -⟩ := WF_runOps ops
  exact ⟨htot, hassign⟩


/-- A successful assign keeps `total` and does not increase the number of
assigned flags by more than the number of pod bindings it adds. -/
theorem assign_phi (ds : DataStore) (pod : K8SPodInfo) (ip : String) (dn : Int)
    (ds2 : DataStore) (h : AssignPodIPv4Address ds pod = .ok (ip, dn, ds2)) :
    ds2.total = ds.total ∧
    (totalAssignedFlags ds2.eniIPPools : Int) - ds2.podsIP.length ≤
      (totalAssignedFlags ds.eniIPPools : Int) - ds.podsIP.length := by
  rcases assign_ok_main ds pod ip dn ds2 h with heq |
    ⟨hlk, g1, eni, g2, m1, k, a, m2, hg, hm, hip, hdn, hds2⟩
  · rw [heq]
    exact ⟨rfl, le_refl _⟩
  · subst hds2
    refine ⟨rfl, ?_⟩
    dsimp only
    rw [hg]
    simp only [totalAssignedFlags_append, totalAssignedFlags_cons, eniAssignedFlags]
    rw [hm]
    simp only [addrFlags_append, addrFlags_cons, List.length_append, List.length_cons,
      List.length_nil]
    cases hA : a.Assigned
    all_goals
      simp only [hA, Bool.not_false, Bool.not_true, eq_self_iff_true, if_true,
        Bool.false_eq_true, if_false]
      push_cast
      omega

/-- A successful release keeps `total`, clears exactly one assigned flag
and deletes exactly one pod binding. -/
theorem unassign_ok_step (ds : DataStore) (pod : K8SPodInfo) (now : Int)
    (ip : String) (dn : Int) (ds2 : DataStore) (hwf : WF ds)
    (h : UnAssignPodIPv4Address ds pod now = .ok (ip, dn, ds2)) :
    ds2.total = ds.total ∧
    totalAssignedFlags ds2.eniIPPools + 1 = totalAssignedFlags ds.eniIPPools ∧
    ds2.podsIP.length + 1 = ds.podsIP.length := by
  obtain ⟨info, g1, eni, g2, p, hlk, hg, hf, hass, hip, hdn, hds2⟩ :=
    unassign_ok_main ds pod now ip dn ds2 h
  obtain ⟨hids, hkeys, hpods, htot, hassign, hcnt, haddrf⟩ := hwf
  subst hds2
  have hmemeni : eni ∈ ds.eniIPPools := by
    rw [hg]
    simp
  obtain ⟨m1, m2, hm, hm1, hm2, hpk, hamap⟩ :=
    map_update_split (fun q => q.1)
      (fun q => (q.1, { q.2 with Assigned := false, unAssignedTime := now }))
      info.IP p eni.IPv4Addresses (hkeys eni hmemeni) hf
  have heni2 : (unassignENI eni info.IP now).IPv4Addresses =
      m1 ++ (p.1, { p.2 with Assigned := false, unAssignedTime := now }) :: m2 :=
    hamap
  have hfindb : ∃ b, ds.podsIP.find? (fun q => decide (q.1 = NewPodKey pod)) = some b := by
    unfold lookupPod at hlk
    cases hfb : ds.podsIP.find? (fun q => decide (q.1 = NewPodKey pod)) with
    | none =>
      rw [hfb] at hlk
      cases hlk
    | some b => exact ⟨b, rfl⟩
  obtain ⟨b, hfb⟩ := hfindb
  obtain ⟨p1, p2, hpeq, hp1, hp2, hbk, hpfilter⟩ :=
    filter_key_split (fun q => q.1) (NewPodKey pod) b ds.podsIP hpods hfb
  refine ⟨rfl, ?_, ?_⟩
  · dsimp only
    rw [hg]
    simp only [totalAssignedFlags_append, totalAssignedFlags_cons, eniAssignedFlags]
    rw [heni2, hm]
    simp only [addrFlags_append, addrFlags_cons]
    simp [hass]
    omega
  · dsimp only
    rw [hpfilter, hpeq]
    simp only [List.length_append, List.length_cons]
    omega

/-- Fold of assign over a pod list: well-formedness is kept, `total` is
unchanged, and flags minus bindings does not increase. -/
theorem runAssignsOk_inv :
    ∀ (ps : List K8SPodInfo) (ds ds1 : DataStore), WF ds →
    runAssignsOk ds ps = some ds1 →
    WF ds1 ∧ ds1.total = ds.total ∧
    (totalAssignedFlags ds1.eniIPPools : Int) - ds1.podsIP.length ≤
      (totalAssignedFlags ds.eniIPPools : Int) - ds.podsIP.length := by
  intro ps
  induction ps with
  | nil =>
    intro ds ds1 hwf h
    simp only [runAssignsOk, Option.some.injEq] at h
    subst h
    exact ⟨hwf, rfl, le_refl _⟩
  | cons p tl ih =>
    intro ds ds1 hwf h
    simp only [runAssignsOk] at h
    cases hop : AssignPodIPv4Address ds p with
    | error e =>
      rw [hop] at h
      cases h
    | ok r =>
      obtain ⟨r1, r2, r3⟩ := r
      rw [hop] at h
      have hwf2 := WF_assign ds p r1 r2 r3 hwf hop
      have hstep := assign_phi ds p r1 r2 r3 hop
      obtain ⟨ih1, ih2, ih3⟩ := ih r3 ds1 hwf2 h
      exact ⟨ih1, by rw [ih2, hstep.1], le_trans ih3 hstep.2⟩

/-- Fold of release over a pod list: well-formedness is kept, `total` is
unchanged, and flags and bindings each drop by the number of releases. -/
theorem runReleasesOk_inv (now : Int) :
    ∀ (qs : List K8SPodInfo) (ds ds2 : DataStore), WF ds →
    runReleasesOk now ds qs = some ds2 →
    WF ds2 ∧ ds2.total = ds.total ∧
    (totalAssignedFlags ds2.eniIPPools : Int) =
      totalAssignedFlags ds.eniIPPools - qs.length ∧
    (ds2.podsIP.length : Int) = ds.podsIP.length - qs.length := by
  intro qs
  induction qs with
  | nil =>
    intro ds ds2 hwf h
    simp only [runReleasesOk, Option.some.injEq] at h
    subst h
    exact ⟨hwf, rfl, by simp, by simp⟩
  | cons q tl ih =>
    intro ds ds2 hwf h
    simp only [runReleasesOk] at h
    cases hop : UnAssignPodIPv4Address ds q now with
    | error e =>
      rw [hop] at h
      cases h
    | ok r =>
      obtain ⟨r1, r2, r3⟩ := r
      rw [hop] at h
      have hwf2 := WF_unassign ds q now r1 r2 r3 hwf hop
      have hstep := unassign_ok_step ds q now r1 r2 r3 hwf hop
      obtain ⟨ih1, ih2, ih3, ih4⟩ := ih r3 ds2 hwf2 h
      refine ⟨ih1, by rw [ih2, hstep.1], ?_, ?_⟩
      · rw [ih3]
        simp only [List.length_cons]
        push_cast
        omega
      · rw [ih4]
        simp only [List.length_cons]
        push_cast
        omega

/-- C9: on any well-formed datastore state (the data-model invariants of
the spec) with assigned = 0, any sequence of successful assigns followed
by successful releases that restores the binding map — i.e. every pod
bound during the assign phase is released — brings the assigned counter
back to zero and leaves the total counter at its initial value. -/
theorem c9_release_inverse (ds0 ds1 ds2 : DataStore) (ps qs : List K8SPodInfo)
    (now : Int) (hwf : WF ds0) (h0 : ds0.assigned = 0)
    (hps : runAssignsOk ds0 ps = some ds1)
    (hqs : runReleasesOk now ds1 qs = some ds2)
    (hpods : ds2.podsIP = ds0.podsIP) :
    ds2.assigned = 0 ∧ ds2.total = ds0.total := by
  have hflags0 : totalAssignedFlags ds0.eniIPPools = 0 := by
    have := hwf.2.2.2.2.1
    rw [assigned_eq_flags ds0.eniIPPools hwf.2.2.2.2.2.1] at this
    rw [h0] at this
    exact_mod_cast this.symm
  obtain ⟨hwf1, htot1, hphi⟩ := runAssignsOk_inv ps ds0 ds1 hwf hps
  obtain ⟨hwf2, htot2, hflags, hlen⟩ := runReleasesOk_inv now qs ds1 ds2 hwf1 hqs
  have hlen02 : ds2.podsIP.length = ds0.podsIP.length := by
    rw [hpods]
  have hflags2 : totalAssignedFlags ds2.eniIPPools = 0 := by
    rw [hflags0] at hphi
    have hge : (0 : Int) ≤ (totalAssignedFlags ds2.eniIPPools : Int) := by
      exact_mod_cast Nat.zero_le _
    omega
  constructor
  · have := hwf2.2.2.2.2.1
    rw [assigned_eq_flags ds2.eniIPPools hwf2.2.2.2.2.2.1, hflags2] at this
    simpa using this
  · rw [htot2, htot1]

/-- Witness for c9_release_inverse: scenario S1 end to end — assign
returns (10.0.0.5, 1) with stats (1,1), release returns the same pair
with stats (1,0), and the counters return to (total, assigned) = (1, 0). -/
theorem c9_release_inverse_witness :
    AssignPodIPv4Address s1Store podEmptyReq = .ok ("10.0.0.5", 1, s1Assigned)
    ∧ GetStats s1Assigned = (1, 1)
    ∧ UnAssignPodIPv4Address s1Assigned podEmptyReq 5 = .ok ("10.0.0.5", 1, s1Released)
    ∧ GetStats s1Released = (1, 0)
    ∧ (s1Released.assigned = 0 ∧ s1Released.total = s1Store.total) :=
  ⟨by rfl, by decide, by rfl, by decide,
   c9_release_inverse s1Store s1Assigned s1Released [podEmptyReq] [podEmptyReq] 5
     (by unfold WF; decide) (by decide) (by rfl) (by rfl) (by decide)⟩

end VpcCni
